import Mathlib

/-!
# Student Expense Tracker: verification of `ExpenseScreen.js` and `CategoryChart.js`

A shallow embedding of the expense screen: the SQLite table `expenses` and the
four statements the screen issues, the handlers `loadExpenses`, `addExpense`,
`deleteExpense`, `saveEdit`, and the derived values `totalSpent` and
`categoryTotals`, together with the parts of the ECMAScript semantics those
handlers rely on (Number arithmetic, `parseFloat`, `String.prototype.trim`,
`Date`, property access on a plain object, `Object.keys`).

Conventions of the embedding.

* A JavaScript string is a Lean `String` (a sequence of code points; lone
  surrogates are not represented).
* A finite Number is an IEEE-754 binary64 value.  Every finite binary64 value is
  an integer multiple of `2^-1074`, so it is represented by that integer
  (`JSNumber.fin k` is the value `k * 2^-1074`); `-0` is identified with `0`,
  which none of the modelled code paths distinguishes (`<=`, `||`, `+`, `isNaN`).
* A `Date` is its time value (milliseconds since the epoch, UTC); the local time
  zone is a fixed offset.
* The data base is the list of rows of `expenses` plus the `sqlite_sequence`
  counter of the `AUTOINCREMENT` key; the 64-bit ceiling of the key is not
  modelled.  A statement the engine rejects writes nothing.
* A handler runs to completion before the next one starts, and the calls of
  `new Date()` within one handler return the same instant.
-/

namespace ExpenseTracker

/-! ## ECMAScript Numbers -/

/-- An ECMAScript Number: `fin k` is the finite binary64 value `k * 2^-1074`. -/
inductive JSNumber
  | nan
  | posInf
  | negInf
  | fin (k : Int)
  deriving DecidableEq, Repr

/-- Number of units of `2^-1074` in the value `1`. -/
def unitsPerOne : Nat := 2 ^ 1074

/-- First magnitude, in units of `2^-1074`, that is no longer finite (`2^1024`). -/
def overflowUnits : Nat := 2 ^ 2098

/-- Nearest integer to `a / b`, ties to the even one. -/
def roundHalfEven (a b : Nat) : Nat :=
  let q := a / b
  let r := a % b
  if 2 * r < b then q else if b < 2 * r then q + 1 else if q % 2 = 0 then q else q + 1

/-- Worker of `bitLength`. -/
def bitLengthAux : Nat → Nat → Nat
  | 0, _ => 0
  | fuel + 1, n => if n = 0 then 0 else bitLengthAux fuel (n / 2) + 1

/-- Number of binary digits of `n` (`0` for `0`). -/
def bitLength (n : Nat) : Nat := bitLengthAux n n

/-- Magnitude `a / b` (in units of `2^-1074`) rounded to the nearest binary64
magnitude: a multiple of the unit with at most 53 significant bits, ties to even. -/
def roundMagnitude (a b : Nat) : Nat :=
  let shift := bitLength (a / b) - 53
  roundHalfEven a (b * 2 ^ shift) * 2 ^ shift

/-- The Number with the given sign and rounded magnitude; overflow gives an infinity. -/
def ofMagnitude (negative : Bool) (m : Nat) : JSNumber :=
  if overflowUnits ≤ m then (if negative then .negInf else .posInf)
  else .fin (if negative then -(m : Int) else (m : Int))

/-- The Number nearest to the exact sum of `k` units (round to nearest, ties to even). -/
def roundUnits (k : Int) : JSNumber :=
  ofMagnitude (decide (k < 0)) (roundMagnitude k.natAbs 1)

/-- The Number nearest to the rational `n / d` (`d ≠ 0`). -/
def roundRatio (n : Int) (d : Nat) : JSNumber :=
  ofMagnitude (decide (n < 0)) (roundMagnitude (n.natAbs * unitsPerOne) d)

namespace JSNumber

/-- The Number value of an integer literal. -/
def ofInt (n : Int) : JSNumber := roundRatio n 1

/-- Binary `+` on two Numbers (Number::add). -/
def add : JSNumber → JSNumber → JSNumber
  | nan, _ => nan
  | _, nan => nan
  | posInf, negInf => nan
  | negInf, posInf => nan
  | posInf, _ => posInf
  | negInf, _ => negInf
  | _, posInf => posInf
  | _, negInf => negInf
  | fin a, fin b => roundUnits (a + b)

/-- Global `isNaN` on a Number. -/
def isNaN : JSNumber → Bool
  | nan => true
  | _ => false

/-- The comparison `x <= 0`. -/
def leZero : JSNumber → Bool
  | nan => false
  | posInf => false
  | negInf => true
  | fin k => decide (k ≤ 0)

/-- ToBoolean on a Number: `NaN` and zero are falsy. -/
def truthy : JSNumber → Bool
  | nan => false
  | fin k => decide (k ≠ 0)
  | _ => true

/-- A finite Number (neither `NaN` nor an infinity). -/
def isFinite : JSNumber → Bool
  | fin _ => true
  | _ => false

/-- The units of `2^-1074` of a Number, `0` when it is not finite. -/
def units : JSNumber → Int
  | fin k => k
  | _ => 0

end JSNumber

/-! ## ECMAScript strings -/

/-- WhiteSpace and LineTerminator code points, the ones `trim` and `parseFloat` strip. -/
def isJSWhiteSpace (c : Char) : Bool :=
  let n := c.toNat
  n = 0x09 || n = 0x0A || n = 0x0B || n = 0x0C || n = 0x0D || n = 0x20 || n = 0xA0 ||
  n = 0x1680 || (0x2000 ≤ n && n ≤ 0x200A) || n = 0x2028 || n = 0x2029 || n = 0x202F ||
  n = 0x205F || n = 0x3000 || n = 0xFEFF

/-- TrimString on the list of code points, both ends. -/
def trimChars (cs : List Char) : List Char :=
  ((cs.dropWhile isJSWhiteSpace).reverse.dropWhile isJSWhiteSpace).reverse

/-- The method `String.prototype.trim`. -/
def jsTrim (s : String) : String := ⟨trimChars s.data⟩

/-- A decimal digit. -/
def isDigit (c : Char) : Bool := decide ('0' ≤ c ∧ c ≤ '9')

/-- Value of a run of decimal digits. -/
def digitsValue (cs : List Char) : Nat :=
  cs.foldl (fun acc c => 10 * acc + (c.toNat - '0'.toNat)) 0

/-- The ExponentPart at the head of `cs`, if there is one: `e` or `E`, an optional
sign and at least one digit. -/
def parseExponent (cs : List Char) : Int :=
  match cs with
  | e :: rest =>
    if e = 'e' ∨ e = 'E' then
      match rest with
      | '+' :: ds =>
        if (ds.takeWhile isDigit).isEmpty then 0 else (digitsValue (ds.takeWhile isDigit) : Int)
      | '-' :: ds =>
        if (ds.takeWhile isDigit).isEmpty then 0 else -(digitsValue (ds.takeWhile isDigit) : Int)
      | ds =>
        if (ds.takeWhile isDigit).isEmpty then 0 else (digitsValue (ds.takeWhile isDigit) : Int)
    else 0
  | [] => 0

/-- The Number with mathematical value `mant * 10 ^ exp`, negated when `negative`. -/
def decimalValue (negative : Bool) (mant : Nat) (exp : Int) : JSNumber :=
  if 0 ≤ exp then ofMagnitude negative (roundMagnitude (mant * 10 ^ exp.toNat * unitsPerOne) 1)
  else ofMagnitude negative (roundMagnitude (mant * unitsPerOne) (10 ^ (-exp).toNat))

/-- The longest prefix of `cs` that is a StrUnsignedDecimalLiteral, evaluated. -/
def parseUnsigned (negative : Bool) (cs : List Char) : JSNumber :=
  if "Infinity".data.isPrefixOf cs then (if negative then .negInf else .posInf)
  else
    let intDigits := cs.takeWhile isDigit
    let afterInt := cs.dropWhile isDigit
    match afterInt with
    | '.' :: rest =>
      let fracDigits := rest.takeWhile isDigit
      if intDigits.isEmpty && fracDigits.isEmpty then .nan
      else
        decimalValue negative (digitsValue (intDigits ++ fracDigits))
          (parseExponent (rest.dropWhile isDigit) - (fracDigits.length : Int))
    | _ =>
      if intDigits.isEmpty then .nan
      else decimalValue negative (digitsValue intDigits) (parseExponent afterInt)

/-- Global `parseFloat` on a string. -/
def parseFloat (s : String) : JSNumber :=
  match s.data.dropWhile isJSWhiteSpace with
  | '+' :: cs => parseUnsigned false cs
  | '-' :: cs => parseUnsigned true cs
  | cs => parseUnsigned false cs

/-- Decimal digits of a natural number, most significant first (`"0"` for `0`). -/
def natDigits (n : Nat) : List Char := Nat.toDigits 10 n

/-- ToString of an integral Number, as used by `String(n)` and template literals. -/
def intToString (n : Int) : List Char :=
  if n < 0 then '-' :: natDigits n.natAbs else natDigits n.natAbs

/-- The method `String.prototype.padStart(width, "0")` on a list of code points. -/
def padStartZero (width : Nat) (cs : List Char) : List Char :=
  List.replicate (width - cs.length) '0' ++ cs

/-- Code-point-wise lexicographic `a <= b`, the order of SQLite's BINARY collation
on TEXT values. -/
def textLE : List Char → List Char → Bool
  | [], _ => true
  | _ :: _, [] => false
  | a :: as, b :: bs => if a.toNat < b.toNat then true else if b.toNat < a.toNat then false
      else textLE as bs

/-! ## ECMAScript Date -/

/-- The clock and time zone of the device: `now` is the time value `new Date()`
returns, `tza` the local time zone adjustment, both in milliseconds. -/
structure Clock where
  now : Int
  tza : Int
  deriving DecidableEq, Repr

def msPerDay : Int := 86400000

/-- Day number of a time value. -/
def Day (t : Int) : Int := t / msPerDay

/-- Milliseconds since the start of the day. -/
def TimeWithinDay (t : Int) : Int := t % msPerDay

/-- Day number of the first day of year `y`. -/
def DayFromYear (y : Int) : Int :=
  365 * (y - 1970) + (y - 1969) / 4 - (y - 1901) / 100 + (y - 1601) / 400

/-- Number of days of year `y`. -/
def DaysInYear (y : Int) : Int :=
  if y % 4 ≠ 0 then 365 else if y % 100 ≠ 0 then 366 else if y % 400 ≠ 0 then 365 else 366

/-- The year of the day number `d`: the largest `y` with `DayFromYear y ≤ d`. -/
def yearFromDay (d : Int) : Int :=
  let y := 1970 + d * 400 / 146097
  if DayFromYear (y + 1) ≤ d then y + 1 else if DayFromYear y ≤ d then y else y - 1

/-- The year of a time value. -/
def YearFromTime (t : Int) : Int := yearFromDay (Day t)

/-- One in a leap year, zero otherwise. -/
def InLeapYear (t : Int) : Int := if DaysInYear (YearFromTime t) = 366 then 1 else 0

/-- Day of the year, from `0`. -/
def DayWithinYear (t : Int) : Int := Day t - DayFromYear (YearFromTime t)

/-- Month of a time value, `0` for January. -/
def MonthFromTime (t : Int) : Int :=
  let d := DayWithinYear t
  let l := InLeapYear t
  if d < 31 then 0 else if d < 59 + l then 1 else if d < 90 + l then 2
  else if d < 120 + l then 3 else if d < 151 + l then 4 else if d < 181 + l then 5
  else if d < 212 + l then 6 else if d < 243 + l then 7 else if d < 273 + l then 8
  else if d < 304 + l then 9 else if d < 334 + l then 10 else 11

/-- Number of days of the year before month `m` (`0` for January), `l` the leap day. -/
def daysBeforeMonth (m l : Int) : Int :=
  if m = 0 then 0 else if m = 1 then 31 else if m = 2 then 59 + l else if m = 3 then 90 + l
  else if m = 4 then 120 + l else if m = 5 then 151 + l else if m = 6 then 181 + l
  else if m = 7 then 212 + l else if m = 8 then 243 + l else if m = 9 then 273 + l
  else if m = 10 then 304 + l else 334 + l

/-- Day of the month, from `1`. -/
def DateFromTime (t : Int) : Int :=
  DayWithinYear t - daysBeforeMonth (MonthFromTime t) (InLeapYear t) + 1

/-- Day of the week, `0` for Sunday. -/
def WeekDay (t : Int) : Int := (Day t + 4) % 7

/-- Day number of the given year, month and day of the month; the month and the
day may lie outside their usual ranges. -/
def MakeDay (year month date : Int) : Int :=
  let ym := year + month / 12
  let mn := month % 12
  DayFromYear ym + daysBeforeMonth mn (if DaysInYear ym = 366 then 1 else 0) + date - 1

/-- Time value of a day number and a time within the day. -/
def MakeDate (day time : Int) : Int := day * msPerDay + time

/-- Local time of a time value. -/
def LocalTime (c : Clock) (t : Int) : Int := t + c.tza

/-- Time value of a local time. -/
def UTC (c : Clock) (t : Int) : Int := t - c.tza

/-- The method `Date.prototype.getDate`. -/
def getDate (c : Clock) (t : Int) : Int := DateFromTime (LocalTime c t)

/-- The method `Date.prototype.getDay`. -/
def getDay (c : Clock) (t : Int) : Int := WeekDay (LocalTime c t)

/-- The method `Date.prototype.getMonth`. -/
def getMonth (c : Clock) (t : Int) : Int := MonthFromTime (LocalTime c t)

/-- The method `Date.prototype.getFullYear`. -/
def getFullYear (c : Clock) (t : Int) : Int := YearFromTime (LocalTime c t)

/-- The method `Date.prototype.setDate`: the time value after setting the local day of the
month to `dt`.  The local time is converted back with the one offset of the clock, which
is exact for a zone whose offset does not change between the two days. -/
def setDate (c : Clock) (t : Int) (dt : Int) : Int :=
  let lt := LocalTime c t
  UTC c (MakeDate (MakeDay (YearFromTime lt) (MonthFromTime lt) dt) (TimeWithinDay lt))

/-- The year field of `toISOString`: four digits, or a sign and six digits outside
`0 .. 9999`. -/
def isoYear (y : Int) : List Char :=
  if 0 ≤ y ∧ y ≤ 9999 then padStartZero 4 (natDigits y.toNat)
  else (if y < 0 then '-' else '+') :: padStartZero 6 (natDigits y.natAbs)

/-- The method `Date.prototype.toISOString`: `YYYY-MM-DDTHH:mm:ss.sssZ` in UTC. -/
def toISOString (t : Int) : List Char :=
  let tw := TimeWithinDay t
  isoYear (YearFromTime t) ++ '-' :: padStartZero 2 (natDigits (MonthFromTime t + 1).toNat)
    ++ '-' :: padStartZero 2 (natDigits (DateFromTime t).toNat)
    ++ 'T' :: padStartZero 2 (natDigits (tw / 3600000).toNat)
    ++ ':' :: padStartZero 2 (natDigits (tw / 60000 % 60).toNat)
    ++ ':' :: padStartZero 2 (natDigits (tw / 1000 % 60).toNat)
    ++ '.' :: padStartZero 3 (natDigits (tw % 1000).toNat) ++ ['Z']

/-- The expression `d.toISOString().split("T")[0]`: the text before the first `T`. -/
def isoDatePart (t : Int) : String := ⟨(toISOString t).takeWhile (fun ch => ch != 'T')⟩

/-! ## Plain objects -/

/-- The values an entry of the accumulator of `categoryTotals` can take: a Number,
`undefined`, an object (a function or the prototype object, met only through
inheritance) or a string (the concatenation of the text of such an object with a
Number; it is never empty and its text is not represented). -/
inductive JSValue
  | undefined
  | number (x : JSNumber)
  | string
  | object
  deriving DecidableEq, Repr

/-- The own properties of an object literal `{}`, in order of creation. -/
abbrev JSObject := List (String × JSValue)

/-- The property names every plain object inherits from `Object.prototype`. -/
def objectPrototypeKeys : List String :=
  ["constructor", "__defineGetter__", "__defineSetter__", "hasOwnProperty",
   "__lookupGetter__", "__lookupSetter__", "isPrototypeOf", "propertyIsEnumerable",
   "toString", "valueOf", "__proto__", "toLocaleString"]

/-- The property read `o[k]`: the own property, else the inherited one (a method,
or for `__proto__` the prototype object), else `undefined`. -/
def JSObject.get (o : JSObject) (k : String) : JSValue :=
  match o.lookup k with
  | some v => v
  | none => if k ∈ objectPrototypeKeys then .object else .undefined

/-- Replaces the value of the own property `k`. -/
def JSObject.replace (o : JSObject) (k : String) (v : JSValue) : JSObject :=
  o.map (fun kv => if kv.1 = k then (k, v) else kv)

/-- The assignment `o[k] = v` of a primitive `v`: the setter of `__proto__` ignores a
primitive, an own property is overwritten in place, and otherwise a new own property
is created after the existing ones. -/
def JSObject.set (o : JSObject) (k : String) (v : JSValue) : JSObject :=
  if k = "__proto__" then o
  else if (o.lookup k).isSome then o.replace k v
  else o ++ [(k, v)]

/-- The expression `v || 0`. -/
def orZero : JSValue → JSValue
  | .undefined => .number (.fin 0)
  | .number x => if x.truthy then .number x else .number (.fin 0)
  | .string => .string
  | .object => .object

/-- The expression `v + x` for a Number `x`: numeric addition on a Number, string
concatenation on a string or an object. -/
def plus : JSValue → JSNumber → JSValue
  | .undefined, _ => .number .nan
  | .number a, x => .number (a.add x)
  | .string, _ => .string
  | .object, _ => .string

/-- The array index a property name denotes, if it is the canonical decimal form of
an integer in `0 .. 2^32 - 2`. -/
def arrayIndex (k : String) : Option Nat :=
  if k.data ≠ [] ∧ k.data.all isDigit ∧ (k.data.head? ≠ some '0' ∨ k.data.length = 1)
      ∧ digitsValue k.data ≤ 4294967294 then some (digitsValue k.data)
  else none

/-- The function `Object.keys` on a plain object whose properties are all enumerable: the array
indices in ascending numeric order, then the other names in order of creation. -/
def objectKeys (o : JSObject) : List String :=
  ((o.map Prod.fst).filter (fun k => (arrayIndex k).isSome)).insertionSort
      (fun a b => (arrayIndex a).getD 0 ≤ (arrayIndex b).getD 0)
    ++ (o.map Prod.fst).filter (fun k => (arrayIndex k).isNone)

/-- The function `Object.values`: the values in the order of `Object.keys`. -/
def objectValues (o : JSObject) : List JSValue := (objectKeys o).map o.get

/-! ## The table `expenses` -/

/-- A row of `expenses`. -/
structure Expense where
  id : Int
  amount : JSNumber
  category : String
  note : Option String
  date : String
  deriving DecidableEq, Repr

/-- The data base: the rows of `expenses` and the `sqlite_sequence` counter that
`AUTOINCREMENT` maintains (the largest key ever assigned). -/
structure Store where
  rows : List Expense
  seq : Int
  deriving DecidableEq, Repr

/-- What a handler can throw. -/
inductive JSError
  | notNullConstraint
  | typeError
  deriving DecidableEq, Repr

/-- The largest key of the table, `0` when it is empty. -/
def maxRowid (rows : List Expense) : Int := rows.foldl (fun m r => max m r.id) 0

/-- The statement `INSERT INTO expenses (amount, category, note, date) VALUES (?, ?, ?, ?)`.  The
key is one more than the largest key ever present; a `NaN` bound to the `REAL NOT
NULL` column is stored as `NULL` and rejected. -/
def Store.insert (db : Store) (amount : JSNumber) (category : String) (note : Option String)
    (date : String) : Except JSError Store :=
  if amount.isNaN then .error .notNullConstraint
  else
    let id := max db.seq (maxRowid db.rows) + 1
    .ok { rows := db.rows ++ [{ id := id, amount := amount, category := category, note := note,
                                date := date }],
          seq := id }

/-- The statement `UPDATE expenses SET amount = ?, category = ?, note = ? WHERE id = ?`.  The
`NOT NULL` check applies to the rows that are updated. -/
def Store.update (db : Store) (amount : JSNumber) (category : String) (note : Option String)
    (id : Int) : Except JSError Store :=
  if amount.isNaN ∧ db.rows.any (fun r => r.id = id) then .error .notNullConstraint
  else
    .ok { db with rows := db.rows.map (fun r =>
            if r.id = id then { r with amount := amount, category := category, note := note }
            else r) }

/-- The statement `DELETE FROM expenses WHERE id = ?`. -/
def Store.delete (db : Store) (id : Int) : Store :=
  { db with rows := db.rows.filter (fun r => r.id ≠ id) }

/-- The statement `SELECT * FROM expenses [WHERE date >= ?] ORDER BY id DESC`. -/
def Store.select (db : Store) (start : Option String) : List Expense :=
  (match start with
   | none => db.rows
   | some s => db.rows.filter (fun r => textLE s.data r.date.data)).insertionSort
    (fun a b => b.id ≤ a.id)

/-! ## The screen -/

/-- The three values of the `filter` state. -/
inductive Filter
  | all
  | week
  | month
  deriving DecidableEq, Repr

/-- The data base together with the React state of `ExpenseScreen`. -/
structure State where
  db : Store
  expenses : List Expense
  amount : String
  category : String
  note : String
  filter : Filter
  editModalVisible : Bool
  editItem : Option Expense
  editAmount : String
  editCategory : String
  editNote : String
  deriving DecidableEq, Repr

/-- The value `totalSpent`. -/
def totalSpent (expenses : List Expense) : JSNumber :=
  expenses.foldl (fun sum e => sum.add e.amount) (.fin 0)

/-- The value `categoryTotals`. -/
def categoryTotals (expenses : List Expense) : JSObject :=
  expenses.foldl (fun acc e => acc.set e.category (plus (orZero (acc.get e.category)) e.amount)) []

/-- The parameter `startString` of the filter `"week"`. -/
def startString (c : Clock) : String :=
  let today := c.now
  let weekStart := setDate c today (getDate c today - getDay c today)
  isoDatePart weekStart

/-- The parameter `monthStart` of the filter `"month"`. -/
def monthStart (c : Clock) : String :=
  let today := c.now
  ⟨intToString (getFullYear c today) ++ '-' ::
    padStartZero 2 (intToString (getMonth c today + 1)) ++ "-01".data⟩

/-- The parameter list of the query `loadExpenses` builds. -/
def filterStart (c : Clock) : Filter → Option String
  | .all => none
  | .week => some (startString c)
  | .month => some (monthStart c)

/-- The handler `loadExpenses`. -/
def loadExpenses (c : Clock) (s : State) : State :=
  { s with expenses := s.db.select (filterStart c s.filter) }

/-- The expression `text.trim() || null`. -/
def trimOrNull (text : String) : Option String :=
  if jsTrim text = "" then none else some (jsTrim text)

/-- The handler `addExpense`. -/
def addExpense (c : Clock) (s : State) : Except JSError State :=
  let amountNumber := parseFloat s.amount
  if amountNumber.isNaN || amountNumber.leZero || jsTrim s.category = "" then .ok s
  else
    let today := isoDatePart c.now
    match s.db.insert amountNumber (jsTrim s.category) (trimOrNull s.note) today with
    | .error e => .error e
    | .ok db => .ok (loadExpenses c { s with db := db, amount := "", category := "", note := "" })

/-- The handler `deleteExpense`. -/
def deleteExpense (c : Clock) (s : State) (id : Int) : State :=
  loadExpenses c { s with db := s.db.delete id }

/-- The handler `saveEdit`. -/
def saveEdit (c : Clock) (s : State) : Except JSError State :=
  match s.editItem with
  | none => .error .typeError
  | some item =>
    match s.db.update (parseFloat s.editAmount) (jsTrim s.editCategory) (trimOrNull s.editNote)
        item.id with
    | .error e => .error e
    | .ok db => .ok (loadExpenses c { s with db := db, editModalVisible := false })

/-- What `CategoryChart` renders: the placeholder, or a bar chart. -/
inductive ChartView
  | noData
  | bars (labels : List String) (values : List JSValue)
  deriving DecidableEq, Repr

/-- The component `CategoryChart`. -/
def CategoryChart (totals : JSObject) : ChartView :=
  let labels := objectKeys totals
  let values := objectValues totals
  if labels.length = 0 then .noData else .bars labels values

/-! ## Sample inputs and the vocabulary of the statements -/

/-- The state of the screen at start-up, over an empty table. -/
def initialState : State :=
  { db := { rows := [], seq := 0 }, expenses := [], amount := "", category := "", note := "",
    filter := .all, editModalVisible := false, editItem := none, editAmount := "",
    editCategory := "", editNote := "" }

/-- Noon UTC of Saturday 2024-06-15 on a device whose zone is UTC. -/
def noonUTC : Clock := { now := 1718452800000, tza := 0 }

/-- A table of three rows; the row inserted last is dated earliest. -/
def sampleRows : List Expense :=
  [{ id := 1, amount := .fin 8, category := "Food", note := none, date := "2024-06-12" },
   { id := 2, amount := .fin 16, category := "Books", note := some "atlas", date := "2024-06-14" },
   { id := 3, amount := .fin 24, category := "Rent", note := none, date := "2024-05-01" }]

/-- The start-up state over `sampleRows`. -/
def sampleState : State := { initialState with db := { rows := sampleRows, seq := 3 } }

/-- What `saveEdit` with the form values `amount`, `category`, `note` may do to a row
when the edited row has the key `id`: the key and the date stay, a row with another
key stays as it is, and a row with that key takes the three edited values. -/
def EditedRow (id : Int) (amount : JSNumber) (category : String) (note : Option String)
    (before after : Expense) : Prop :=
  after.id = before.id ∧ after.date = before.date ∧
  (before.id ≠ id → after = before) ∧
  (before.id = id → after.amount = amount ∧ after.category = category ∧ after.note = note)

/-- The row of key `2` of the sample table. -/
def sampleItem : Expense :=
  { id := 2, amount := .fin 16, category := "Books", note := some "atlas", date := "2024-06-14" }

/-- The sample state with the edit form open on the row of key `2`. -/
def editingState : State :=
  { sampleState with
    editItem := some sampleItem,
    editAmount := "20.5", editCategory := " Travel ", editNote := " ", editModalVisible := true }

/-- The arithmetic sum of the amounts of a list of rows, in units of `2^-1074`. -/
def unitsSum (es : List Expense) : Int := (es.map (fun e => e.amount.units)).sum

/-- The distinct names of a list, each at the place of its first occurrence. -/
def firstOccurrences : List String → List String
  | [] => []
  | c :: cs => c :: (firstOccurrences cs).filter (fun d => d ≠ c)

/-- A row with the given key, amount text and category. -/
def mkRow (id : Int) (amount : String) (category : String) : Expense :=
  { id := id, amount := parseFloat amount, category := category, note := none,
    date := "2024-06-15" }

/-- The order of `ORDER BY id DESC` is total. -/
instance : IsTotal Expense (fun a b => b.id ≤ a.id) := ⟨fun a b => le_total b.id a.id⟩

/-- The order of `ORDER BY id DESC` is transitive. -/
instance : IsTrans Expense (fun a b => b.id ≤ a.id) := ⟨fun _ _ _ h₁ h₂ => le_trans h₂ h₁⟩


/-- The numeric order of `Object.keys` on array indices is total. -/
instance : IsTotal String (fun a b => (arrayIndex a).getD 0 ≤ (arrayIndex b).getD 0) :=
  ⟨fun a b => le_total ((arrayIndex a).getD 0) ((arrayIndex b).getD 0)⟩

/-- The numeric order of `Object.keys` on array indices is transitive. -/
instance : IsTrans String (fun a b => (arrayIndex a).getD 0 ≤ (arrayIndex b).getD 0) :=
  ⟨fun _ _ _ h₁ h₂ => le_trans h₁ h₂⟩

/-- Saturday 2024-06-15, 22:00 local time, on a device five hours behind UTC (the
instant 2024-06-16T03:00:00Z). -/
def lateEveningWest : Clock := { now := 1718506800000, tza := -18000000 }

/-- Saturday 2024-06-15, 05:00 local time, on a device ten hours ahead of UTC (the
instant 2024-06-14T19:00:00Z). -/
def earlyMorningEast : Clock := { now := 1718391600000, tza := 36000000 }

/-- Monday 2024-07-01, 05:00 local time, on a device ten hours ahead of UTC (the
instant 2024-06-30T19:00:00Z). -/
def firstOfMonthEast : Clock := { now := 1719774000000, tza := 36000000 }

/-- A table of three rows dated 2024-06-08, 2024-06-09 and 2024-06-10. -/
def weekRows : List Expense :=
  [{ id := 1, amount := .fin 8, category := "Food", note := none, date := "2024-06-08" },
   { id := 2, amount := .fin 16, category := "Food", note := none, date := "2024-06-09" },
   { id := 3, amount := .fin 24, category := "Food", note := none, date := "2024-06-10" }]

/-- The start-up state over `weekRows` with the filter `"week"` selected. -/
def weekState : State :=
  { initialState with db := { rows := weekRows, seq := 3 }, filter := .week }
/-! ## Lemmas on the model -/

/-- A row with a key above all others goes to the front of `ORDER BY id DESC`,
wherever it is stored. -/
theorem insertionSort_append_max (l : List Expense) (x : Expense) (h : ∀ y ∈ l, y.id < x.id) :
    (l ++ [x]).insertionSort (fun a b => b.id ≤ a.id)
      = x :: l.insertionSort (fun a b => b.id ≤ a.id) := by
  induction l with
  | nil => simp
  | cons a l ih =>
    have ha : a.id < x.id := h a (List.mem_cons_self _ _)
    have hl : ∀ y ∈ l, y.id < x.id := fun y hy => h y (List.mem_cons_of_mem _ hy)
    rw [List.cons_append, List.insertionSort, ih hl, List.insertionSort, List.orderedInsert,
      if_neg (not_le.mpr ha)]

/-- Inserting into a sorted list commutes with filtering. -/
theorem filter_orderedInsert (p : Expense → Bool) (a : Expense) (l : List Expense)
    (hl : l.Sorted (fun a b => b.id ≤ a.id)) :
    (l.orderedInsert (fun a b => b.id ≤ a.id) a).filter p
      = if p a then (l.filter p).orderedInsert (fun a b => b.id ≤ a.id) a else l.filter p := by
  induction l with
  | nil => by_cases hp : p a <;> simp [hp]
  | cons b l ih =>
    have hl' := hl.of_cons
    have hb := List.rel_of_sorted_cons hl
    by_cases hab : b.id ≤ a.id
    · rw [List.orderedInsert, if_pos hab]
      by_cases hp : p a
      · have hall : ∀ y ∈ (b :: l).filter p, y.id ≤ a.id := by
          intro y hy
          rcases List.mem_cons.mp (List.mem_filter.mp hy).1 with h | h
          · rw [h]; exact hab
          · exact le_trans (hb y h) hab
        rw [List.filter_cons_of_pos hp, if_pos hp]
        cases hf : (b :: l).filter p with
        | nil => simp
        | cons c t =>
          have hc : c.id ≤ a.id := hall c (by rw [hf]; exact List.mem_cons_self _ _)
          rw [List.orderedInsert, if_pos hc]
      · rw [List.filter_cons_of_neg hp, if_neg hp]
    · rw [List.orderedInsert, if_neg hab]
      by_cases hq : p b
      · rw [List.filter_cons_of_pos hq, ih hl', List.filter_cons_of_pos hq]
        by_cases hp : p a
        · rw [if_pos hp, if_pos hp, List.orderedInsert, if_neg hab]
        · rw [if_neg hp, if_neg hp]
      · rw [List.filter_cons_of_neg hq, ih hl', List.filter_cons_of_neg hq]

/-- Sorting by descending key commutes with filtering. -/
theorem filter_insertionSort (p : Expense → Bool) (l : List Expense) :
    (l.insertionSort (fun a b => b.id ≤ a.id)).filter p
      = (l.filter p).insertionSort (fun a b => b.id ≤ a.id) := by
  induction l with
  | nil => simp
  | cons a l ih =>
    rw [List.insertionSort, filter_orderedInsert p a _ (List.sorted_insertionSort _ l), ih]
    by_cases hp : p a
    · rw [if_pos hp, List.filter_cons_of_pos hp, List.insertionSort]
    · rw [if_neg hp, List.filter_cons_of_neg hp]

/-- With distinct keys, `ORDER BY id DESC` is strictly descending. -/
theorem insertionSort_strict (l : List Expense) (h : (l.map Expense.id).Nodup) :
    (l.insertionSort (fun a b => b.id ≤ a.id)).Pairwise (fun a b => b.id < a.id) := by
  have hs : (l.insertionSort (fun a b => b.id ≤ a.id)).Sorted (fun a b => b.id ≤ a.id) :=
    List.sorted_insertionSort _ l
  have hn : ((l.insertionSort (fun a b => b.id ≤ a.id)).map Expense.id).Nodup :=
    ((List.perm_insertionSort _ l).map Expense.id).nodup_iff.mpr h
  have hne := List.Nodup.of_map _ hn
  have hp : (l.insertionSort (fun a b => b.id ≤ a.id)).Pairwise (fun a b => a.id ≠ b.id) := by
    have := (List.pairwise_map (f := Expense.id) (R := fun a b => a ≠ b)).mp hn
    exact this
  exact (hs.and hp).imp (fun ⟨h₁, h₂⟩ => lt_of_le_of_ne h₁ (Ne.symm h₂))

/-- No key of the table exceeds `maxRowid`. -/
theorem le_maxRowid (rows : List Expense) : ∀ r ∈ rows, r.id ≤ maxRowid rows := by
  have key : ∀ (l : List Expense) (m : Int),
      m ≤ l.foldl (fun m r => max m r.id) m ∧ ∀ r ∈ l, r.id ≤ l.foldl (fun m r => max m r.id) m := by
    intro l
    induction l with
    | nil => intro m; simp
    | cons a l ih =>
      intro m
      obtain ⟨h₁, h₂⟩ := ih (max m a.id)
      refine ⟨le_trans (le_max_left _ _) h₁, ?_⟩
      intro r hr
      rcases List.mem_cons.mp hr with h | h
      · rw [h]; exact le_trans (le_max_right _ _) h₁
      · exact h₂ r h
  exact (key rows 0).2

/-! ## Checks of the model of the platform -/

/-- The fuel of `bitLengthAux` suffices: the result is the position of the leading bit. -/
theorem bitLengthAux_spec (fuel n : Nat) (h : n ≤ fuel) :
    n < 2 ^ bitLengthAux fuel n ∧ (0 < n → 2 ^ (bitLengthAux fuel n - 1) ≤ n) := by
  induction fuel generalizing n with
  | zero =>
    have h0 : n = 0 := Nat.le_zero.mp h
    subst h0
    simp [bitLengthAux]
  | succ fuel ih =>
    unfold bitLengthAux
    by_cases hn : n = 0
    · subst hn
      simp
    · rw [if_neg hn]
      have hhalf : n / 2 ≤ fuel := by omega
      obtain ⟨h1, h2⟩ := ih (n / 2) hhalf
      constructor
      · rw [pow_succ]
        omega
      · intro _
        rw [Nat.add_sub_cancel]
        by_cases hz : n / 2 = 0
        · have hone : n = 1 := by omega
          subst hone
          have hzero : bitLengthAux fuel 0 = 0 := by cases fuel <;> simp [bitLengthAux]
          simp [hzero]
        · have hpos : 0 < n / 2 := Nat.pos_of_ne_zero hz
          have hle := h2 hpos
          have hb : 0 < bitLengthAux fuel (n / 2) := by
            by_contra hcon
            have hzero : bitLengthAux fuel (n / 2) = 0 := by omega
            rw [hzero] at h1
            simp at h1
            exact hz h1
          have hsplit : bitLengthAux fuel (n / 2) = (bitLengthAux fuel (n / 2) - 1) + 1 := by
            omega
          rw [hsplit, pow_succ]
          omega

/-- The number `n > 0` has exactly `bitLength n` binary digits. -/
theorem bitLength_spec (n : Nat) (hn : 0 < n) :
    2 ^ (bitLength n - 1) ≤ n ∧ n < 2 ^ bitLength n :=
  ⟨(bitLengthAux_spec n n (le_refl n)).2 hn, (bitLengthAux_spec n n (le_refl n)).1⟩

/-- Known values of `parseFloat` and of Number addition: prefixes and signs, the
special values, rounding to nearest with ties to even, underflow and overflow. -/
theorem parseFloat_samples :
    parseFloat "12.50" = roundRatio 25 2 ∧ parseFloat "  7abc" = JSNumber.ofInt 7 ∧
    parseFloat ".5e1" = JSNumber.ofInt 5 ∧ parseFloat "5." = JSNumber.ofInt 5 ∧
    parseFloat "1e" = JSNumber.ofInt 1 ∧ parseFloat "-2.5E-1" = roundRatio (-1) 4 ∧
    parseFloat "" = .nan ∧ parseFloat "abc" = .nan ∧ parseFloat "." = .nan ∧
    parseFloat "-Infinity" = .negInf ∧ parseFloat "1e400" = .posInf ∧
    parseFloat "1e-400" = .fin 0 ∧ parseFloat "5e-324" = .fin 1 ∧
    parseFloat "0.1" = roundRatio 3602879701896397 36028797018963968 ∧
    (parseFloat "0.1").add (parseFloat "0.2") = parseFloat "0.30000000000000004" ∧
    (parseFloat "0.1").add (parseFloat "0.2") ≠ parseFloat "0.3" ∧
    (parseFloat "9007199254740992").add (parseFloat "3") = parseFloat "9007199254740996" := by
  decide!

/-- Known values of `toISOString` and of the local getters. -/
theorem toISOString_samples :
    String.mk (toISOString 0) = "1970-01-01T00:00:00.000Z" ∧
    String.mk (toISOString (-1000)) = "1969-12-31T23:59:59.000Z" ∧
    String.mk (toISOString 951782400000) = "2000-02-29T00:00:00.000Z" ∧
    String.mk (toISOString 4107542400000) = "2100-03-01T00:00:00.000Z" ∧
    String.mk (toISOString (-2203894800000)) = "1900-02-28T23:00:00.000Z" ∧
    String.mk (toISOString 1718506800123) = "2024-06-16T03:00:00.123Z" ∧
    String.mk (toISOString 8640000000000000) = "+275760-09-13T00:00:00.000Z" ∧
    isoDatePart (setDate noonUTC 1709341200000 0) = "2024-02-29" ∧
    isoDatePart (setDate noonUTC 1709341200000 (-2)) = "2024-02-27" ∧
    getDay noonUTC 1718452800000 = 6 ∧ getDay noonUTC 0 = 4 := by
  decide

/-- The year computed for a day number is the year whose days contain it, as
`YearFromTime` is specified: `DayFromYear y ≤ d < DayFromYear (y + 1)`. -/
theorem yearFromDay_spec (d : Int) :
    DayFromYear (yearFromDay d) ≤ d ∧ d < DayFromYear (yearFromDay d + 1) := by
  unfold yearFromDay
  simp only []
  generalize hy : d * 400 / 146097 = n
  have hn1 : 146097 * n ≤ 400 * d := by omega
  have hn2 : 400 * d < 146097 * (n + 1) := by omega
  clear hy
  split_ifs with h1 h2
  · refine ⟨h1, ?_⟩
    unfold DayFromYear
    omega
  · exact ⟨h2, not_le.mp h1⟩
  · rw [sub_add_cancel]
    refine ⟨?_, not_le.mp h2⟩
    unfold DayFromYear
    omega

/-- The day numbers of consecutive years differ by the length of the year. -/
theorem DayFromYear_succ (y : Int) : DayFromYear (y + 1) = DayFromYear y + DaysInYear y := by
  unfold DayFromYear DaysInYear
  split_ifs <;> omega

/-- A year has 365 or 366 days. -/
theorem DaysInYear_pos (y : Int) : 365 ≤ DaysInYear y ∧ DaysInYear y ≤ 366 := by
  unfold DaysInYear
  split_ifs <;> omega

/-- The day within the year lies in the year. -/
theorem DayWithinYear_range (t : Int) :
    0 ≤ DayWithinYear t ∧ DayWithinYear t < DaysInYear (YearFromTime t) := by
  have h := yearFromDay_spec (Day t)
  rw [DayFromYear_succ] at h
  unfold DayWithinYear YearFromTime
  omega

/-- The day of the month lies in `1 .. 31`. -/
theorem DateFromTime_range (t : Int) : 1 ≤ DateFromTime t ∧ DateFromTime t ≤ 31 := by
  have key : ∀ d l m : Int, (l = 0 ∨ l = 1) → 0 ≤ d → d < 365 + l →
      m = (if d < 31 then (0 : Int) else if d < 59 + l then 1 else if d < 90 + l then 2
        else if d < 120 + l then 3 else if d < 151 + l then 4 else if d < 181 + l then 5
        else if d < 212 + l then 6 else if d < 243 + l then 7 else if d < 273 + l then 8
        else if d < 304 + l then 9 else if d < 334 + l then 10 else 11) →
      1 ≤ d - daysBeforeMonth m l + 1 ∧ d - daysBeforeMonth m l + 1 ≤ 31 := by
    intro d l m hl h0 h1 hm
    by_cases c0 : d < 31
    · rw [if_pos c0] at hm
      subst hm
      norm_num [daysBeforeMonth]
      omega
    rw [if_neg c0] at hm
    by_cases c1 : d < 59 + l
    · rw [if_pos c1] at hm
      subst hm
      norm_num [daysBeforeMonth]
      omega
    rw [if_neg c1] at hm
    by_cases c2 : d < 90 + l
    · rw [if_pos c2] at hm
      subst hm
      norm_num [daysBeforeMonth]
      omega
    rw [if_neg c2] at hm
    by_cases c3 : d < 120 + l
    · rw [if_pos c3] at hm
      subst hm
      norm_num [daysBeforeMonth]
      omega
    rw [if_neg c3] at hm
    by_cases c4 : d < 151 + l
    · rw [if_pos c4] at hm
      subst hm
      norm_num [daysBeforeMonth]
      omega
    rw [if_neg c4] at hm
    by_cases c5 : d < 181 + l
    · rw [if_pos c5] at hm
      subst hm
      norm_num [daysBeforeMonth]
      omega
    rw [if_neg c5] at hm
    by_cases c6 : d < 212 + l
    · rw [if_pos c6] at hm
      subst hm
      norm_num [daysBeforeMonth]
      omega
    rw [if_neg c6] at hm
    by_cases c7 : d < 243 + l
    · rw [if_pos c7] at hm
      subst hm
      norm_num [daysBeforeMonth]
      omega
    rw [if_neg c7] at hm
    by_cases c8 : d < 273 + l
    · rw [if_pos c8] at hm
      subst hm
      norm_num [daysBeforeMonth]
      omega
    rw [if_neg c8] at hm
    by_cases c9 : d < 304 + l
    · rw [if_pos c9] at hm
      subst hm
      norm_num [daysBeforeMonth]
      omega
    rw [if_neg c9] at hm
    by_cases c10 : d < 334 + l
    · rw [if_pos c10] at hm
      subst hm
      norm_num [daysBeforeMonth]
      omega
    rw [if_neg c10] at hm
    subst hm
    norm_num [daysBeforeMonth]
    omega
  have h := DayWithinYear_range t
  have hd := DaysInYear_pos (YearFromTime t)
  have hl : InLeapYear t = if DaysInYear (YearFromTime t) = 366 then 1 else 0 := rfl
  have hl01 : InLeapYear t = 0 ∨ InLeapYear t = 1 := by
    rw [hl]; split_ifs <;> simp
  have hn : DaysInYear (YearFromTime t) = 365 + InLeapYear t := by
    rw [hl]; split_ifs with h366 <;> omega
  rw [hn] at h
  exact key (DayWithinYear t) (InLeapYear t) (MonthFromTime t) hl01 h.1 h.2 rfl

/-! ## C1: invalid input to `addExpense` -/

/-- C1, counterexample: the amount text `Infinity` does not denote a finite number, yet
`addExpense` accepts it and inserts a row. -/
theorem addExpense_accepts_infinity :
    (parseFloat "Infinity").isFinite = false ∧
    (addExpense noonUTC { initialState with amount := "Infinity", category := "Food" }).toOption.map
        (fun s => s.db.select none)
      = some [{ id := 1, amount := .posInf, category := "Food", note := none,
                date := "2024-06-15" }] ∧
    initialState.db.select none = [] := by
  decide

/-- C1, amended: when `parseFloat` of the amount text is `NaN` or is `<= 0`, or the
category is empty after trimming, `addExpense` raises no error and leaves the whole
state, the table included, as it was; so `list(ALL)` is unchanged. -/
theorem addExpense_invalid_noop (c : Clock) (s : State)
    (h : (parseFloat s.amount).isNaN = true ∨ (parseFloat s.amount).leZero = true ∨
      jsTrim s.category = "") :
    addExpense c s = .ok s ∧
      ∀ s', addExpense c s = .ok s' → s'.db = s.db ∧ s'.db.select none = s.db.select none := by
  have hs : addExpense c s = .ok s := by
    unfold addExpense
    rcases h with h | h | h <;> simp [h]
  refine ⟨hs, ?_⟩
  intro s' hs'
  rw [hs] at hs'
  cases hs'
  exact ⟨rfl, rfl⟩

/-- C1, witness: a negative amount on the sample table. -/
theorem addExpense_invalid_noop_witness :
    ((parseFloat "-3").isNaN = true ∨ (parseFloat "-3").leZero = true ∨ jsTrim "Food" = "") ∧
    (addExpense noonUTC { sampleState with amount := "-3", category := "Food" }
        = .ok { sampleState with amount := "-3", category := "Food" } ∧
      ∀ s', addExpense noonUTC { sampleState with amount := "-3", category := "Food" } = .ok s' →
        s'.db = sampleState.db ∧ s'.db.select none = sampleState.db.select none) :=
  ⟨Or.inr (Or.inl (by decide!)),
   addExpense_invalid_noop noonUTC { sampleState with amount := "-3", category := "Food" }
     (Or.inr (Or.inl (by decide!)))⟩

/-! ## C2: valid input to `addExpense` -/

/-- The category ` Food ` is valid, and the row stored for it has the category `Food`:
the texts are stored trimmed. -/
theorem addExpense_stores_trimmed_category :
    (parseFloat "12").isNaN = false ∧ (parseFloat "12").leZero = false ∧ jsTrim " Food " ≠ "" ∧
    (addExpense noonUTC { initialState with amount := "12", category := " Food " }).toOption.map
        (fun s => (s.db.select none).map Expense.category) = some ["Food"] := by
  decide!

/-- What `addExpense` does on valid input (`parseFloat` of the amount text is neither
`NaN` nor `<= 0`, the category is not empty after trimming): it succeeds, and
`list(ALL)` afterwards is `list(ALL)` before it with exactly one more row in front.
The amount of that row is `parseFloat` of the amount text, its category and note are
the submitted texts trimmed (the note absent when that is empty), its key is above
every key of the table, and its date is the date part of `toISOString()` of the
current instant, which is a date of the UTC calendar. -/
theorem addExpense_valid_inserts (c : Clock) (s : State)
    (hn : (parseFloat s.amount).isNaN = false) (hp : (parseFloat s.amount).leZero = false)
    (hc : jsTrim s.category ≠ "") :
    ∃ s' row, addExpense c s = .ok s' ∧
      row.amount = parseFloat s.amount ∧ row.category = jsTrim s.category ∧
      row.note = (if jsTrim s.note = "" then none else some (jsTrim s.note)) ∧
      row.date = isoDatePart c.now ∧ (∀ r ∈ s.db.rows, r.id < row.id) ∧
      s'.db.rows = s.db.rows ++ [row] ∧
      s'.db.select none = row :: s.db.select none := by
  have hlt : ∀ r ∈ s.db.rows, r.id < max s.db.seq (maxRowid s.db.rows) + 1 := fun r hr =>
    lt_of_le_of_lt (le_trans (le_maxRowid _ r hr) (le_max_right _ _)) (lt_add_one _)
  have hs : addExpense c s = .ok (loadExpenses c { s with
      db := Store.mk (s.db.rows ++ [Expense.mk (max s.db.seq (maxRowid s.db.rows) + 1)
                (parseFloat s.amount) (jsTrim s.category) (trimOrNull s.note)
                (isoDatePart c.now)])
              (max s.db.seq (maxRowid s.db.rows) + 1),
      amount := "", category := "", note := "" }) := by
    simp [addExpense, Store.insert, hn, hp, hc]
  exact ⟨_, _, hs, rfl, rfl, rfl, rfl, hlt, rfl, insertionSort_append_max _ _ hlt⟩

/-- C2, the code at the failing inputs.  On Saturday 2024-06-15 at 22:00 local time, five
hours behind UTC, the local getters give today as 2024-06-15 (and the month filter
starts at `2024-06-01`), while the one row `addExpense` adds to the sample table, listed
first with the submitted amount, category and note, is dated `2024-06-16`.  On Monday
2024-07-01 at 05:00 local time, ten hours ahead of UTC, today is 2024-07-01 and the
row is dated `2024-06-30`. -/
theorem addExpense_stores_utc_date :
    (getFullYear lateEveningWest lateEveningWest.now = 2024 ∧
      getMonth lateEveningWest lateEveningWest.now = 5 ∧
      getDate lateEveningWest lateEveningWest.now = 15 ∧
      monthStart lateEveningWest = "2024-06-01" ∧
      (addExpense lateEveningWest
          { sampleState with amount := "12.50", category := "Food", note := "lunch" }).toOption.map
        (fun s => s.db.select none)
        = some (Expense.mk 4 (parseFloat "12.50") "Food" (some "lunch") "2024-06-16" ::
            sampleState.db.select none)) ∧
    (getFullYear firstOfMonthEast firstOfMonthEast.now = 2024 ∧
      getMonth firstOfMonthEast firstOfMonthEast.now = 6 ∧
      getDate firstOfMonthEast firstOfMonthEast.now = 1 ∧
      (addExpense firstOfMonthEast
          { sampleState with amount := "12.50", category := "Food", note := "lunch" }).toOption.map
        (fun s => (s.db.select none).map Expense.date)
        = some ("2024-06-30" :: (sampleState.db.select none).map Expense.date)) := by
  decide!

/-! ## C3: `saveEdit` -/

/-- The rows after an accepted `UPDATE` are related to the rows before it, position
by position, by `EditedRow`. -/
theorem update_rows_edited (rows : List Expense) (id : Int) (amount : JSNumber)
    (category : String) (note : Option String) :
    List.Forall₂ (EditedRow id amount category note) rows
      (rows.map (fun r =>
        if r.id = id then { r with amount := amount, category := category, note := note }
        else r)) := by
  induction rows with
  | nil => exact List.Forall₂.nil
  | cons r rows ih =>
    refine List.Forall₂.cons ?_ ih
    by_cases h : r.id = id
    · show EditedRow id amount category note r (if r.id = id then _ else r)
      rw [if_pos h]
      exact ⟨rfl, rfl, fun hne => absurd h hne, fun _ => ⟨rfl, rfl, rfl⟩⟩
    · show EditedRow id amount category note r (if r.id = id then _ else r)
      rw [if_neg h]
      exact ⟨rfl, rfl, fun _ => rfl, fun he => absurd he h⟩

/-- An `UPDATE` that matches no row writes nothing. -/
theorem update_rows_absent (rows : List Expense) (id : Int) (amount : JSNumber)
    (category : String) (note : Option String) (h : ∀ r ∈ rows, r.id ≠ id) :
    rows.map (fun r =>
        if r.id = id then { r with amount := amount, category := category, note := note }
        else r) = rows := by
  induction rows with
  | nil => rfl
  | cons r rows ih =>
    have hr : r.id ≠ id := h r (List.mem_cons_self _ _)
    rw [List.map_cons, if_neg hr, ih (fun x hx => h x (List.mem_cons_of_mem _ hx))]

/-- C3: `saveEdit` on the edited row `item`, for any table and any form values.
Either the engine rejects the statement (the amount text parses to `NaN`, which the
`NOT NULL` column refuses, and a row has the key) and nothing is written, or
`saveEdit` succeeds and the table afterwards has the same number of rows, each one
related to the row at its position before by `EditedRow`: same key, same date, untouched
unless its key is `item.id`, and then carrying the edited amount, category and note.
When no row has the key `item.id`, `saveEdit` succeeds and the table is unchanged. -/
theorem saveEdit_frame (c : Clock) (s : State) (item : Expense) (h : s.editItem = some item) :
    ((saveEdit c s = .error .notNullConstraint ∧ (parseFloat s.editAmount).isNaN = true ∧
        ∃ r ∈ s.db.rows, r.id = item.id) ∨
      ∃ s', saveEdit c s = .ok s' ∧ s'.db.rows.length = s.db.rows.length ∧
        s'.db.seq = s.db.seq ∧
        List.Forall₂ (EditedRow item.id (parseFloat s.editAmount) (jsTrim s.editCategory)
          (if jsTrim s.editNote = "" then none else some (jsTrim s.editNote)))
          s.db.rows s'.db.rows) ∧
    ((∀ r ∈ s.db.rows, r.id ≠ item.id) → ∃ s', saveEdit c s = .ok s' ∧ s'.db = s.db) := by
  constructor
  · by_cases hrej : (parseFloat s.editAmount).isNaN = true ∧ ∃ r ∈ s.db.rows, r.id = item.id
    · left
      refine ⟨?_, hrej.1, hrej.2⟩
      obtain ⟨hn, r, hr, hid⟩ := hrej
      have hany : ∃ x ∈ s.db.rows, x.id = item.id := ⟨r, hr, hid⟩
      simp [saveEdit, h, Store.update, hn, hany]
    · right
      have hcond : ¬ ((parseFloat s.editAmount).isNaN = true ∧
          (s.db.rows.any (fun r => decide (r.id = item.id))) = true) := by
        intro hh
        apply hrej
        refine ⟨hh.1, ?_⟩
        obtain ⟨r, hr, hid⟩ := List.any_eq_true.mp hh.2
        exact ⟨r, hr, of_decide_eq_true hid⟩
      refine ⟨loadExpenses c { s with
          db := { s.db with rows := s.db.rows.map (fun r =>
            if r.id = item.id then
              { r with amount := parseFloat s.editAmount, category := jsTrim s.editCategory,
                       note := trimOrNull s.editNote }
            else r) },
          editModalVisible := false }, ?_, ?_, rfl, ?_⟩
      · simp only [saveEdit, h, Store.update, if_neg hcond]
      · simp [loadExpenses]
      · exact update_rows_edited s.db.rows item.id _ _ _
  · intro habs
    have hcond : ¬ ((parseFloat s.editAmount).isNaN = true ∧
        (s.db.rows.any (fun r => decide (r.id = item.id))) = true) := by
      intro hh
      obtain ⟨r, hr, hid⟩ := List.any_eq_true.mp hh.2
      exact habs r hr (of_decide_eq_true hid)
    refine ⟨loadExpenses c { s with
        db := { s.db with rows := s.db.rows.map (fun r =>
          if r.id = item.id then
            { r with amount := parseFloat s.editAmount, category := jsTrim s.editCategory,
                     note := trimOrNull s.editNote }
          else r) },
        editModalVisible := false }, ?_, ?_⟩
    · simp only [saveEdit, h, Store.update, if_neg hcond]
    · show Store.mk _ _ = s.db
      rw [update_rows_absent s.db.rows item.id _ _ _ habs]

/-- C3, witness: the edit form open on the row of key `2` of the sample table. -/
theorem saveEdit_frame_witness :
    editingState.editItem = some sampleItem ∧
    (((saveEdit noonUTC editingState = .error .notNullConstraint ∧
        (parseFloat editingState.editAmount).isNaN = true ∧
        ∃ r ∈ editingState.db.rows, r.id = 2) ∨
      ∃ s', saveEdit noonUTC editingState = .ok s' ∧
        s'.db.rows.length = editingState.db.rows.length ∧ s'.db.seq = editingState.db.seq ∧
        List.Forall₂ (EditedRow 2 (parseFloat editingState.editAmount)
          (jsTrim editingState.editCategory)
          (if jsTrim editingState.editNote = "" then none
            else some (jsTrim editingState.editNote)))
          editingState.db.rows s'.db.rows) ∧
    ((∀ r ∈ editingState.db.rows, r.id ≠ 2) →
      ∃ s', saveEdit noonUTC editingState = .ok s' ∧ s'.db = editingState.db)) :=
  ⟨rfl, saveEdit_frame noonUTC editingState sampleItem rfl⟩

/-! ## C4: `deleteExpense` -/

/-- With distinct keys, deleting a key that is present removes one row. -/
theorem length_filter_ne_id (rows : List Expense) (id : Int)
    (hu : (rows.map Expense.id).Nodup) (hm : ∃ r ∈ rows, r.id = id) :
    (rows.filter (fun r => decide (r.id ≠ id))).length + 1 = rows.length := by
  induction rows with
  | nil => obtain ⟨r, hr, _⟩ := hm; cases hr
  | cons a rows ih =>
    rw [List.map_cons, List.nodup_cons] at hu
    by_cases ha : a.id = id
    · have hall : ∀ r ∈ rows, r.id ≠ id := by
        intro r hr he
        exact hu.1 (List.mem_map.mpr ⟨r, hr, by rw [he, ha]⟩)
      have hf : rows.filter (fun r => decide (r.id ≠ id)) = rows :=
        List.filter_eq_self.mpr (fun r hr => decide_eq_true (hall r hr))
      have hd : decide (a.id ≠ id) = false := decide_eq_false (fun hne => hne ha)
      rw [List.filter_cons_of_neg (p := fun r : Expense => decide (r.id ≠ id))
        (by show ¬ decide (a.id ≠ id) = true; rw [hd]; exact Bool.false_ne_true), hf,
        List.length_cons]
    · obtain ⟨r, hr, he⟩ := hm
      have hr' : r ∈ rows := by
        rcases List.mem_cons.mp hr with h | h
        · exact absurd (h ▸ he) ha
        · exact h
      have hlen := ih hu.2 ⟨r, hr', he⟩
      have hd : decide (a.id ≠ id) = true := decide_eq_true ha
      rw [List.filter_cons_of_pos (p := fun r : Expense => decide (r.id ≠ id)) hd, List.length_cons,
        List.length_cons, hlen]

/-- C4: `deleteExpense` on a table with distinct keys.  `list(ALL)` afterwards is
`list(ALL)` before it without the rows of key `id`, the others unchanged and in the same
order; the stored rows are the stored rows of another key, in the same order; if a row
has the key, exactly one row goes; if none has it, the table is unchanged; and in both
cases the length of `list(ALL)` drops by at most one. -/
theorem deleteExpense_removes (c : Clock) (s : State) (id : Int)
    (hu : (s.db.rows.map Expense.id).Nodup) :
    (deleteExpense c s id).db.select none
        = (s.db.select none).filter (fun r => decide (r.id ≠ id)) ∧
    (deleteExpense c s id).db.rows = s.db.rows.filter (fun r => decide (r.id ≠ id)) ∧
    ((∃ r ∈ s.db.rows, r.id = id) →
      ((deleteExpense c s id).db.select none).length + 1 = (s.db.select none).length) ∧
    ((∀ r ∈ s.db.rows, r.id ≠ id) → (deleteExpense c s id).db = s.db) ∧
    ((deleteExpense c s id).db.select none).length ≤ (s.db.select none).length ∧
    (s.db.select none).length ≤ ((deleteExpense c s id).db.select none).length + 1 := by
  have hsel : (deleteExpense c s id).db.select none
      = (s.db.select none).filter (fun r => decide (r.id ≠ id)) := by
    simp only [deleteExpense, loadExpenses, Store.delete, Store.select]
    rw [filter_insertionSort]
  have hlen : ∀ rows : List Expense, (rows.filter (fun r => decide (r.id ≠ id))).length
      ≤ rows.length := fun rows => List.length_filter_le _ _
  have hdel : ((deleteExpense c s id).db.select none).length
      = (s.db.rows.filter (fun r => decide (r.id ≠ id))).length := by
    simp only [deleteExpense, loadExpenses, Store.delete, Store.select,
      List.length_insertionSort]
  have hall : (s.db.select none).length = s.db.rows.length := by
    simp only [Store.select, List.length_insertionSort]
  refine ⟨hsel, rfl, ?_, ?_, ?_, ?_⟩
  · intro hm
    rw [hdel, hall]
    exact length_filter_ne_id _ _ hu hm
  · intro habs
    have hf : s.db.rows.filter (fun r => decide (r.id ≠ id)) = s.db.rows :=
      List.filter_eq_self.mpr (fun r hr => decide_eq_true (habs r hr))
    show Store.mk _ _ = s.db
    rw [hf]
  · rw [hdel, hall]
    exact hlen _
  · rw [hdel, hall]
    by_cases hm : ∃ r ∈ s.db.rows, r.id = id
    · exact le_of_eq (length_filter_ne_id _ _ hu hm).symm
    · have hf : s.db.rows.filter (fun r => decide (r.id ≠ id)) = s.db.rows :=
        List.filter_eq_self.mpr (fun r hr => decide_eq_true (fun he => hm ⟨r, hr, he⟩))
      rw [hf]
      exact Nat.le_succ _

/-- C4, witness: deleting the key `2` from the sample table. -/
theorem deleteExpense_removes_witness :
    (sampleState.db.rows.map Expense.id).Nodup ∧
    (deleteExpense noonUTC sampleState 2).db.select none
        = (sampleState.db.select none).filter (fun r => decide (r.id ≠ 2)) ∧
    (deleteExpense noonUTC sampleState 2).db.rows
        = sampleState.db.rows.filter (fun r => decide (r.id ≠ 2)) ∧
    ((∃ r ∈ sampleState.db.rows, r.id = 2) →
      ((deleteExpense noonUTC sampleState 2).db.select none).length + 1
        = (sampleState.db.select none).length) ∧
    ((∀ r ∈ sampleState.db.rows, r.id ≠ 2) →
      (deleteExpense noonUTC sampleState 2).db = sampleState.db) ∧
    ((deleteExpense noonUTC sampleState 2).db.select none).length
        ≤ (sampleState.db.select none).length ∧
    (sampleState.db.select none).length
        ≤ ((deleteExpense noonUTC sampleState 2).db.select none).length + 1 :=
  ⟨by decide, deleteExpense_removes noonUTC sampleState 2 (by decide)⟩

/-! ## C8: the order of `loadExpenses` -/

/-- C8: on a table with distinct keys, for each of the three filters and any clock, the
list `loadExpenses` displays is in strictly descending order of key, whatever the dates
of the rows are. -/
theorem loadExpenses_descending (c : Clock) (s : State)
    (hu : (s.db.rows.map Expense.id).Nodup) :
    (loadExpenses c s).expenses.Pairwise (fun a b => b.id < a.id) := by
  simp only [loadExpenses, Store.select]
  apply insertionSort_strict
  cases filterStart c s.filter with
  | none => exact hu
  | some start => exact hu.sublist ((List.filter_sublist _).map _)

/-- C8, witness: the sample table, whose row of key `3` is dated before the others, under
the filter `"all"`: it is listed first. -/
theorem loadExpenses_descending_witness :
    (sampleState.db.rows.map Expense.id).Nodup ∧
    (loadExpenses noonUTC sampleState).expenses.Pairwise (fun a b => b.id < a.id) ∧
    (loadExpenses noonUTC sampleState).expenses.map (fun r => (r.id, r.date))
      = [(3, "2024-05-01"), (2, "2024-06-14"), (1, "2024-06-12")] :=
  ⟨by decide, loadExpenses_descending noonUTC sampleState (by decide), by decide⟩

/-! ## The accumulator of `categoryTotals` -/

/-- An own property exists exactly when its name is among the names of the object. -/
theorem lookup_isSome_iff (o : JSObject) (k : String) :
    (o.lookup k).isSome = true ↔ k ∈ o.map Prod.fst := by
  induction o with
  | nil => simp
  | cons kv o ih =>
    obtain ⟨k', v'⟩ := kv
    by_cases h : k = k'
    · subst h; simp [List.lookup]
    · have hb : (k == k') = false := by simpa using h
      simp [List.lookup, hb, ih, h]

/-- An own property is absent exactly when its name is not among the names. -/
theorem lookup_eq_none_iff (o : JSObject) (k : String) :
    o.lookup k = none ↔ k ∉ o.map Prod.fst := by
  rw [← lookup_isSome_iff]
  cases o.lookup k <;> simp

/-- Overwriting a property keeps the names and their order. -/
theorem replace_keys (o : JSObject) (k : String) (v : JSValue) :
    (o.replace k v).map Prod.fst = o.map Prod.fst := by
  induction o with
  | nil => rfl
  | cons kv o ih =>
    simp only [JSObject.replace, List.map_cons] at ih ⊢
    rw [ih]
    by_cases h : kv.1 = k
    · rw [if_pos h, h]
    · rw [if_neg h]

/-- Reading the first property of an object. -/
theorem lookup_cons_self (o : JSObject) (k : String) (v : JSValue) :
    List.lookup k ((k, v) :: o) = some v := by
  simp [List.lookup_cons]

/-- Reading past a property of another name. -/
theorem lookup_cons_ne (o : JSObject) (c k : String) (v : JSValue) (h : c ≠ k) :
    List.lookup c ((k, v) :: o) = List.lookup c o := by
  have hb : (c == k) = false := by simpa using h
  simp [List.lookup_cons, hb]

/-- Reading after overwriting. -/
theorem lookup_replace (o : JSObject) (k c : String) (v : JSValue) :
    (o.replace k v).lookup c
      = if c = k then (if (o.lookup k).isSome then some v else none) else o.lookup c := by
  induction o with
  | nil => by_cases h : c = k <;> simp [JSObject.replace, h]
  | cons kv o ih =>
    obtain ⟨k', v'⟩ := kv
    have hstep : JSObject.replace ((k', v') :: o) k v
        = (if k' = k then (k, v) else (k', v')) :: JSObject.replace o k v := rfl
    rw [hstep]
    by_cases hk : k' = k
    · subst hk
      rw [if_pos rfl]
      by_cases hc : c = k'
      · subst hc
        rw [lookup_cons_self, lookup_cons_self, if_pos rfl]
        rfl
      · rw [lookup_cons_ne _ _ _ _ hc, lookup_cons_ne _ _ _ _ hc, ih, if_neg hc, if_neg hc]
    · rw [if_neg hk]
      by_cases hc : c = k'
      · subst hc
        rw [lookup_cons_self, lookup_cons_self, if_neg hk]
      · rw [lookup_cons_ne _ _ _ _ hc, lookup_cons_ne _ _ _ _ hc, ih]
        by_cases hck : c = k
        · subst hck
          rw [if_pos rfl, if_pos rfl, lookup_cons_ne _ _ _ _ hc]
        · rw [if_neg hck, if_neg hck]

/-- Reading after creating a property behind the existing ones. -/
theorem lookup_append_singleton (o : JSObject) (k c : String) (v : JSValue) :
    (o ++ [(k, v)]).lookup c
      = match o.lookup c with
        | some w => some w
        | none => if c = k then some v else none := by
  induction o with
  | nil =>
    by_cases h : c = k
    · subst h
      show List.lookup c [(c, v)] = _
      rw [lookup_cons_self]
      simp
    · show List.lookup c [(k, v)] = _
      rw [lookup_cons_ne _ _ _ _ h]
      simp [h]
  | cons kv o ih =>
    obtain ⟨k', v'⟩ := kv
    rw [List.cons_append]
    by_cases hc : c = k'
    · subst hc
      rw [lookup_cons_self, lookup_cons_self]
    · rw [lookup_cons_ne _ _ _ _ hc, lookup_cons_ne _ _ _ _ hc, ih]

/-- The names of the object after the assignment `o[k] = v`. -/
theorem set_keys (o : JSObject) (k : String) (v : JSValue) :
    (o.set k v).map Prod.fst
      = if k = "__proto__" then o.map Prod.fst
        else if k ∈ o.map Prod.fst then o.map Prod.fst else o.map Prod.fst ++ [k] := by
  unfold JSObject.set
  by_cases hp : k = "__proto__"
  · rw [if_pos hp, if_pos hp]
  · rw [if_neg hp, if_neg hp]
    by_cases hm : k ∈ o.map Prod.fst
    · rw [if_pos ((lookup_isSome_iff o k).mpr hm), if_pos hm, replace_keys]
    · have hn : ¬ (o.lookup k).isSome = true := fun h => hm ((lookup_isSome_iff o k).mp h)
      rw [if_neg hn, if_neg hm, List.map_append]
      rfl

/-- Reading the assigned property back. -/
theorem lookup_set_self (o : JSObject) (k : String) (v : JSValue) (hp : k ≠ "__proto__") :
    (o.set k v).lookup k = some v := by
  unfold JSObject.set
  rw [if_neg hp]
  by_cases hs : (o.lookup k).isSome = true
  · rw [if_pos hs, lookup_replace, if_pos rfl, if_pos hs]
  · rw [if_neg hs, lookup_append_singleton]
    have hn : o.lookup k = none := by
      cases h : o.lookup k with
      | none => rfl
      | some w => rw [h] at hs; exact absurd rfl hs
    rw [hn]
    simp

/-- Reading another property after an assignment. -/
theorem lookup_set_other (o : JSObject) (k c : String) (v : JSValue) (hc : c ≠ k) :
    (o.set k v).lookup c = o.lookup c := by
  unfold JSObject.set
  by_cases hp : k = "__proto__"
  · rw [if_pos hp]
  · rw [if_neg hp]
    by_cases hs : (o.lookup k).isSome = true
    · rw [if_pos hs, lookup_replace, if_neg hc]
    · rw [if_neg hs, lookup_append_singleton]
      cases o.lookup c with
      | none => simp [hc]
      | some w => rfl

/-- One step of the reduction of `categoryTotals`. -/
theorem categoryTotals_append (es : List Expense) (e : Expense) :
    categoryTotals (es ++ [e])
      = (categoryTotals es).set e.category
          (plus (orZero ((categoryTotals es).get e.category)) e.amount) := by
  simp [categoryTotals, List.foldl_append]

/-- One step of the reduction of `totalSpent`. -/
theorem totalSpent_append (es : List Expense) (e : Expense) :
    totalSpent (es ++ [e]) = (totalSpent es).add e.amount := by
  simp [totalSpent, List.foldl_append]

/-- The function `Object.keys` lists exactly the names of the own properties. -/
theorem mem_objectKeys (o : JSObject) (k : String) :
    k ∈ objectKeys o ↔ k ∈ o.map Prod.fst := by
  unfold objectKeys
  rw [List.mem_append, (List.perm_insertionSort _ _).mem_iff, List.mem_filter, List.mem_filter]
  cases arrayIndex k <;> simp

/-! ## C9: `totalSpent` -/

/-- Rounding never produces `NaN`. -/
theorem roundUnits_ne_nan (k : Int) : roundUnits k ≠ .nan := by
  unfold roundUnits ofMagnitude
  split_ifs <;> simp

/-- Adding a finite Number to a Number that is not `NaN` does not give `NaN`. -/
theorem add_fin_ne_nan (x : JSNumber) (k : Int) (hx : x ≠ .nan) : x.add (.fin k) ≠ .nan := by
  cases x with
  | nan => exact absurd rfl hx
  | posInf => simp [JSNumber.add]
  | negInf => simp [JSNumber.add]
  | fin a => exact roundUnits_ne_nan _

/-- The total of finite amounts is never `NaN`. -/
theorem totalSpent_ne_nan (es : List Expense) (hfin : ∀ e ∈ es, e.amount.isFinite = true) :
    totalSpent es ≠ .nan := by
  induction es using List.reverseRecOn with
  | nil => simp [totalSpent]
  | append_singleton es e ih =>
    rw [totalSpent_append]
    have he : e.amount.isFinite = true := hfin e (by simp)
    cases ha : e.amount with
    | fin k => exact add_fin_ne_nan _ k (ih (fun x hx => hfin x (by simp [hx])))
    | nan => rw [ha] at he; cases he
    | posInf => rw [ha] at he; cases he
    | negInf => rw [ha] at he; cases he

/-- The arithmetic sum after one more row. -/
theorem unitsSum_append (es : List Expense) (e : Expense) :
    unitsSum (es ++ [e]) = unitsSum es + e.amount.units := by
  simp [unitsSum]

/-- When the amounts are finite and every partial sum is a binary64 value, the total
is the arithmetic sum. -/
theorem totalSpent_of_exact (es : List Expense) (hfin : ∀ e ∈ es, e.amount.isFinite = true)
    (hexact : ∀ n, n ≤ es.length →
      roundUnits (unitsSum (es.take n)) = .fin (unitsSum (es.take n))) :
    totalSpent es = .fin (unitsSum es) := by
  induction es using List.reverseRecOn with
  | nil => simp [totalSpent, unitsSum]
  | append_singleton es e ih =>
    have hprev : totalSpent es = .fin (unitsSum es) := by
      apply ih (fun x hx => hfin x (by simp [hx]))
      intro n hn
      have := hexact n (by simp; omega)
      rwa [List.take_append_of_le_length hn] at this
    have he : e.amount.isFinite = true := hfin e (by simp)
    have hlast := hexact (es ++ [e]).length (le_refl _)
    rw [List.take_length] at hlast
    rw [totalSpent_append, hprev]
    cases ha : e.amount with
    | fin k =>
      rw [unitsSum_append, ha] at hlast
      rw [unitsSum_append, ha]
      exact hlast
    | nan => rw [ha] at he; cases he
    | posInf => rw [ha] at he; cases he
    | negInf => rw [ha] at he; cases he

/-- C9, counterexample: for the amounts `9007199254740992` and `1` the total is
`9007199254740992`, and the arithmetic sum is `9007199254740993`. -/
theorem totalSpent_rounds :
    totalSpent [mkRow 1 "9007199254740992" "Rent", mkRow 2 "1" "Food"]
      = .fin (9007199254740992 * unitsPerOne) ∧
    (mkRow 1 "9007199254740992" "Rent").amount = .fin (9007199254740992 * unitsPerOne) ∧
    (mkRow 2 "1" "Food").amount = .fin (1 * unitsPerOne) ∧
    unitsSum [mkRow 1 "9007199254740992" "Rent", mkRow 2 "1" "Food"]
      = 9007199254740993 * unitsPerOne ∧
    totalSpent [mkRow 1 "9007199254740992" "Rent", mkRow 2 "1" "Food"]
      ≠ .fin (unitsSum [mkRow 1 "9007199254740992" "Rent", mkRow 2 "1" "Food"]) := by
  decide!

/-- C9, amended: `totalSpent` is `0` for the empty list; for a list of rows with finite
amounts it is the sum accumulated from `0` in list order in binary64 arithmetic, and it
equals the arithmetic sum of the amounts whenever every partial sum (the sum of the
first `n` amounts) is itself a binary64 value, so that no addition rounds. -/
theorem totalSpent_sum (es : List Expense) (hfin : ∀ e ∈ es, e.amount.isFinite = true)
    (hexact : ∀ n, n ≤ es.length →
      roundUnits (unitsSum (es.take n)) = .fin (unitsSum (es.take n))) :
    totalSpent es = .fin (unitsSum es) ∧ totalSpent [] = .fin 0 ∧
    ∀ e : Expense, totalSpent (es ++ [e]) = (totalSpent es).add e.amount :=
  ⟨totalSpent_of_exact es hfin hexact, rfl, totalSpent_append es⟩

/-- C9, witness: the amounts `12.50` and `7.00` give the total `19.50`. -/
theorem totalSpent_sum_witness :
    (∀ e ∈ [mkRow 1 "12.50" "Food", mkRow 2 "7.00" "Books"], e.amount.isFinite = true) ∧
    (∀ n, n ≤ [mkRow 1 "12.50" "Food", mkRow 2 "7.00" "Books"].length →
      roundUnits (unitsSum ([mkRow 1 "12.50" "Food", mkRow 2 "7.00" "Books"].take n))
        = .fin (unitsSum ([mkRow 1 "12.50" "Food", mkRow 2 "7.00" "Books"].take n))) ∧
    totalSpent [mkRow 1 "12.50" "Food", mkRow 2 "7.00" "Books"] = parseFloat "19.50" ∧
    (totalSpent [mkRow 1 "12.50" "Food", mkRow 2 "7.00" "Books"]
        = .fin (unitsSum [mkRow 1 "12.50" "Food", mkRow 2 "7.00" "Books"]) ∧
      totalSpent [] = .fin 0 ∧
      ∀ e : Expense, totalSpent ([mkRow 1 "12.50" "Food", mkRow 2 "7.00" "Books"] ++ [e])
        = (totalSpent [mkRow 1 "12.50" "Food", mkRow 2 "7.00" "Books"]).add e.amount) :=
  ⟨by decide!, by decide!, by decide!,
   totalSpent_sum [mkRow 1 "12.50" "Food", mkRow 2 "7.00" "Books"] (by decide!) (by decide!)⟩

/-! ## C6: the entries of `categoryTotals` -/

/-- The expression `x || 0` followed by `+ a` is `x + a` for a Number `x` that is not `NaN`. -/
theorem plus_orZero_number (x a : JSNumber) (hx : x ≠ .nan) :
    plus (orZero (.number x)) a = .number (x.add a) := by
  cases x with
  | nan => exact absurd rfl hx
  | posInf => rfl
  | negInf => rfl
  | fin k =>
    by_cases hk : k = 0
    · subst hk; rfl
    · simp [orZero, JSNumber.truthy, hk, plus]

/-- The rows of a category after one more row. -/
theorem filter_category_append (es : List Expense) (e : Expense) (c : String) :
    (es ++ [e]).filter (fun x => decide (x.category = c))
      = if e.category = c then es.filter (fun x => decide (x.category = c)) ++ [e]
        else es.filter (fun x => decide (x.category = c)) := by
  by_cases h : e.category = c <;> simp [List.filter_append, h]

/-- The own properties of `categoryTotals`, for rows with finite amounts whose categories
are not names inherited from `Object.prototype`: a category that occurs holds the total
of its rows, a name that does not occur is absent. -/
theorem categoryTotals_lookup (es : List Expense)
    (hproto : ∀ e ∈ es, e.category ∉ objectPrototypeKeys)
    (hfin : ∀ e ∈ es, e.amount.isFinite = true) (c : String) :
    (categoryTotals es).lookup c
      = if ∃ e ∈ es, e.category = c then
          some (.number (totalSpent (es.filter (fun x => decide (x.category = c)))))
        else none := by
  induction es using List.reverseRecOn with
  | nil => simp [categoryTotals]
  | append_singleton es e ih =>
    have hproto' : ∀ x ∈ es, x.category ∉ objectPrototypeKeys :=
      fun x hx => hproto x (by simp [hx])
    have hfin' : ∀ x ∈ es, x.amount.isFinite = true := fun x hx => hfin x (by simp [hx])
    have he : e.category ∉ objectPrototypeKeys := hproto e (by simp)
    have hne : e.category ≠ "__proto__" := by
      intro h
      apply he
      rw [h]
      decide
    rw [categoryTotals_append, filter_category_append]
    by_cases hc : c = e.category
    · subst hc
      have hex : ∃ x ∈ es ++ [e], x.category = e.category := ⟨e, by simp, rfl⟩
      rw [lookup_set_self _ _ _ hne, if_pos hex, if_pos rfl, totalSpent_append]
      have hget := ih hproto' hfin'
      unfold JSObject.get
      by_cases hprev : ∃ x ∈ es, x.category = e.category
      · rw [hget, if_pos hprev]
        have hnan : totalSpent (es.filter (fun x => decide (x.category = e.category))) ≠ .nan :=
          totalSpent_ne_nan _ (fun x hx => hfin' x (List.mem_filter.mp hx).1)
        rw [plus_orZero_number _ _ hnan]
      · have hempty : es.filter (fun x => decide (x.category = e.category)) = [] := by
          rw [List.filter_eq_nil_iff]
          intro x hx hd
          exact hprev ⟨x, hx, of_decide_eq_true hd⟩
        rw [hget, if_neg hprev, if_neg he, hempty]
        rfl
    · have hce : ¬ e.category = c := fun h => hc h.symm
      rw [lookup_set_other _ _ _ _ hc, if_neg hce, ih hproto' hfin']
      have hiff : (∃ x ∈ es ++ [e], x.category = c) ↔ ∃ x ∈ es, x.category = c := by
        constructor
        · rintro ⟨x, hx, hxc⟩
          rcases List.mem_append.mp hx with h | h
          · exact ⟨x, h, hxc⟩
          · rw [List.mem_singleton] at h
            rw [h] at hxc
            exact absurd hxc hce
        · rintro ⟨x, hx, hxc⟩
          exact ⟨x, by simp [hx], hxc⟩
      by_cases hprev : ∃ x ∈ es, x.category = c
      · rw [if_pos hprev, if_pos (hiff.mpr hprev)]
      · rw [if_neg hprev, if_neg (fun h => hprev (hiff.mp h))]

/-- C6, counterexample: two rows of the category `Rent` with the amounts
`9007199254740992` and `1`; the entry of `Rent` is `9007199254740992`, and the sum of
the two amounts is `9007199254740993`. -/
theorem categoryTotals_rounds :
    (categoryTotals [mkRow 1 "9007199254740992" "Rent", mkRow 2 "1" "Rent"]).get "Rent"
      = .number (.fin (9007199254740992 * unitsPerOne)) ∧
    unitsSum ([mkRow 1 "9007199254740992" "Rent", mkRow 2 "1" "Rent"].filter
        (fun x => decide (x.category = "Rent"))) = 9007199254740993 * unitsPerOne := by
  decide!

/-- C6, amended: for rows with finite amounts whose categories are not property names
inherited from `Object.prototype`, `categoryTotals` has an entry for `c` (an own
property, listed by `Object.keys`) exactly when `c` is the category of some row, and the
entry of such a `c` is the total, as `totalSpent` computes it (accumulated from `0` in
list order in binary64 arithmetic), of exactly the rows whose category is the same
string as `c`; it is the arithmetic sum of their amounts whenever every partial sum of
them is a binary64 value. -/
theorem categoryTotals_entries (es : List Expense)
    (hproto : ∀ e ∈ es, e.category ∉ objectPrototypeKeys)
    (hfin : ∀ e ∈ es, e.amount.isFinite = true) (c : String) :
    (c ∈ objectKeys (categoryTotals es) ↔ ∃ e ∈ es, e.category = c) ∧
    ((∃ e ∈ es, e.category = c) →
      (categoryTotals es).get c
          = .number (totalSpent (es.filter (fun x => decide (x.category = c)))) ∧
      ((∀ n, n ≤ (es.filter (fun x => decide (x.category = c))).length →
          roundUnits (unitsSum ((es.filter (fun x => decide (x.category = c))).take n))
            = .fin (unitsSum ((es.filter (fun x => decide (x.category = c))).take n))) →
        (categoryTotals es).get c
          = .number (.fin (unitsSum (es.filter (fun x => decide (x.category = c))))))) := by
  have hl := categoryTotals_lookup es hproto hfin c
  refine ⟨?_, ?_⟩
  · rw [mem_objectKeys, ← lookup_isSome_iff, hl]
    by_cases h : ∃ e ∈ es, e.category = c
    · simp only [if_pos h, Option.isSome_some, true_iff]
      exact h
    · simp only [if_neg h, Option.isSome_none, Bool.false_eq_true, false_iff]
      exact h
  · intro h
    have hg : (categoryTotals es).get c
        = .number (totalSpent (es.filter (fun x => decide (x.category = c)))) := by
      unfold JSObject.get
      rw [hl, if_pos h]
    refine ⟨hg, ?_⟩
    intro hexact
    rw [hg, totalSpent_of_exact _ (fun x hx => hfin x (List.mem_filter.mp hx).1) hexact]

/-- C6, witness: the rows `(10, "Food")` and `(5, "food")` give two entries, `Food`
with `10` and `food` with `5`. -/
theorem categoryTotals_entries_witness :
    (∀ e ∈ [mkRow 1 "10" "Food", mkRow 2 "5" "food"], e.category ∉ objectPrototypeKeys) ∧
    (∀ e ∈ [mkRow 1 "10" "Food", mkRow 2 "5" "food"], e.amount.isFinite = true) ∧
    categoryTotals [mkRow 1 "10" "Food", mkRow 2 "5" "food"]
      = [("Food", .number (parseFloat "10")), ("food", .number (parseFloat "5"))] ∧
    (("Food" ∈ objectKeys (categoryTotals [mkRow 1 "10" "Food", mkRow 2 "5" "food"]) ↔
        ∃ e ∈ [mkRow 1 "10" "Food", mkRow 2 "5" "food"], e.category = "Food") ∧
    ((∃ e ∈ [mkRow 1 "10" "Food", mkRow 2 "5" "food"], e.category = "Food") →
      (categoryTotals [mkRow 1 "10" "Food", mkRow 2 "5" "food"]).get "Food"
          = .number (totalSpent ([mkRow 1 "10" "Food", mkRow 2 "5" "food"].filter
              (fun x => decide (x.category = "Food")))) ∧
      ((∀ n, n ≤ ([mkRow 1 "10" "Food", mkRow 2 "5" "food"].filter
              (fun x => decide (x.category = "Food"))).length →
          roundUnits (unitsSum (([mkRow 1 "10" "Food", mkRow 2 "5" "food"].filter
              (fun x => decide (x.category = "Food"))).take n))
            = .fin (unitsSum (([mkRow 1 "10" "Food", mkRow 2 "5" "food"].filter
              (fun x => decide (x.category = "Food"))).take n))) →
        (categoryTotals [mkRow 1 "10" "Food", mkRow 2 "5" "food"]).get "Food"
          = .number (.fin (unitsSum ([mkRow 1 "10" "Food", mkRow 2 "5" "food"].filter
              (fun x => decide (x.category = "Food")))))))) :=
  ⟨by decide, by decide!, by decide!,
   categoryTotals_entries [mkRow 1 "10" "Food", mkRow 2 "5" "food"] (by decide) (by decide!)
     "Food"⟩

/-- The defect left out of C6: a row of the category `constructor` reads the inherited
method, so the entry becomes a string and not the amount; a row of the category
`__proto__` creates no entry at all. -/
theorem categoryTotals_inherited_names :
    categoryTotals [mkRow 1 "10" "constructor"] = [("constructor", .string)] ∧
    categoryTotals [mkRow 1 "10" "__proto__"] = [] := by
  decide!

/-! ## C7: the order of the categories -/

/-- The first occurrences of a list have the members of the list. -/
theorem mem_firstOccurrences (l : List String) (x : String) :
    x ∈ firstOccurrences l ↔ x ∈ l := by
  induction l with
  | nil => simp [firstOccurrences]
  | cons c cs ih =>
    simp only [firstOccurrences, List.mem_cons, List.mem_filter, ih, decide_eq_true_eq]
    by_cases h : x = c <;> simp [h]

/-- The first occurrences of a list are distinct. -/
theorem nodup_firstOccurrences (l : List String) : (firstOccurrences l).Nodup := by
  induction l with
  | nil => simp [firstOccurrences]
  | cons c cs ih =>
    simp only [firstOccurrences, List.nodup_cons, List.mem_filter, decide_eq_true_eq]
    exact ⟨fun h => h.2 rfl, ih.filter _⟩

/-- The first occurrences after one more name. -/
theorem firstOccurrences_append (l : List String) (k : String) :
    firstOccurrences (l ++ [k])
      = if k ∈ l then firstOccurrences l else firstOccurrences l ++ [k] := by
  induction l with
  | nil => simp [firstOccurrences]
  | cons c cs ih =>
    have hstep : firstOccurrences (c :: cs ++ [k])
        = c :: (firstOccurrences (cs ++ [k])).filter (fun d => decide (d ≠ c)) := rfl
    rw [hstep, ih]
    by_cases hk : k ∈ cs
    · rw [if_pos hk, if_pos (List.mem_cons_of_mem _ hk)]
      rfl
    · rw [if_neg hk]
      by_cases hc : k = c
      · subst hc
        rw [if_pos (List.mem_cons_self _ _), List.filter_append]
        simp [firstOccurrences]
      · have hm : k ∉ c :: cs := by
          intro h
          rcases List.mem_cons.mp h with h | h
          · exact hc h
          · exact hk h
        rw [if_neg hm, List.filter_append]
        simp [firstOccurrences, hc]

/-- Taking first occurrences commutes with filtering. -/
theorem filter_firstOccurrences (p : String → Bool) (l : List String) :
    (firstOccurrences l).filter p = firstOccurrences (l.filter p) := by
  induction l with
  | nil => simp [firstOccurrences]
  | cons c cs ih =>
    by_cases hp : p c = true
    · rw [List.filter_cons_of_pos hp, firstOccurrences, firstOccurrences,
        List.filter_cons_of_pos hp, ← ih, List.filter_filter, List.filter_filter]
      congr 2
      funext d
      exact Bool.and_comm _ _
    · rw [List.filter_cons_of_neg hp, firstOccurrences, List.filter_cons_of_neg hp, ← ih,
        List.filter_filter]
      congr 1
      funext d
      by_cases hd : d = c
      · subst hd
        simp [hp]
      · simp [hd]

/-- The own properties of `categoryTotals` are created in the order in which the
categories first occur; the name `__proto__` creates none. -/
theorem categoryTotals_keys (es : List Expense) :
    (categoryTotals es).map Prod.fst
      = firstOccurrences ((es.map Expense.category).filter (fun c => decide (c ≠ "__proto__"))) := by
  induction es using List.reverseRecOn with
  | nil => simp [categoryTotals, firstOccurrences]
  | append_singleton es e ih =>
    rw [categoryTotals_append, set_keys, List.map_append, List.filter_append]
    by_cases hp : e.category = "__proto__"
    · rw [if_pos hp, ih]
      simp [hp]
    · rw [if_neg hp, ih]
      have hf : ([e].map Expense.category).filter (fun c => decide (c ≠ "__proto__"))
          = [e.category] := by simp [hp]
      rw [hf, firstOccurrences_append]
      by_cases hm : e.category ∈
          (es.map Expense.category).filter (fun c => decide (c ≠ "__proto__"))
      · rw [if_pos hm, if_pos ((mem_firstOccurrences _ _).mpr hm)]
      · rw [if_neg hm, if_neg (fun h => hm ((mem_firstOccurrences _ _).mp h))]

/-- C7, counterexample: the categories occur in the order `b`, `2`, `10`, and
`Object.keys` of `categoryTotals` lists them as `2`, `10`, `b`. -/
theorem categoryTotals_index_keys_first :
    objectKeys (categoryTotals [mkRow 1 "4" "b", mkRow 2 "5" "2", mkRow 3 "6" "10"])
      = ["2", "10", "b"] ∧
    [mkRow 1 "4" "b", mkRow 2 "5" "2", mkRow 3 "6" "10"].map Expense.category
      = ["b", "2", "10"] := by
  decide!

/-- C7, amended: for rows none of which has the category `__proto__`, `Object.keys` of
`categoryTotals` (the order of the per-category display and of the chart labels) lists
first the categories that are array indices (canonical decimal integers below
`2^32 - 1`), each once, in ascending numeric order, and then all other categories, each
once, in the order in which they first occur in the input. -/
theorem categoryTotals_key_order (es : List Expense)
    (hproto : ∀ e ∈ es, e.category ≠ "__proto__") :
    ∃ idx : List String,
      objectKeys (categoryTotals es)
        = idx ++ firstOccurrences
            ((es.map Expense.category).filter (fun c => (arrayIndex c).isNone)) ∧
      idx.Pairwise (fun a b => (arrayIndex a).getD 0 ≤ (arrayIndex b).getD 0) ∧
      idx.Nodup ∧
      ∀ k, k ∈ idx ↔ (arrayIndex k).isSome = true ∧ ∃ e ∈ es, e.category = k := by
  have hall : (es.map Expense.category).filter (fun c => decide (c ≠ "__proto__"))
      = es.map Expense.category := by
    rw [List.filter_eq_self]
    intro c hc
    obtain ⟨e, he, rfl⟩ := List.mem_map.mp hc
    exact decide_eq_true (hproto e he)
  have hkeys : (categoryTotals es).map Prod.fst = firstOccurrences (es.map Expense.category) := by
    rw [categoryTotals_keys, hall]
  refine ⟨((firstOccurrences (es.map Expense.category)).filter
      (fun k => (arrayIndex k).isSome)).insertionSort
      (fun a b => (arrayIndex a).getD 0 ≤ (arrayIndex b).getD 0), ?_, ?_, ?_, ?_⟩
  · unfold objectKeys
    rw [hkeys, filter_firstOccurrences (fun k => (arrayIndex k).isNone)]
  · exact List.sorted_insertionSort _ _
  · exact (List.perm_insertionSort _ _).nodup_iff.mpr ((nodup_firstOccurrences _).filter _)
  · intro k
    rw [(List.perm_insertionSort _ _).mem_iff, List.mem_filter, mem_firstOccurrences,
      List.mem_map]
    constructor
    · rintro ⟨⟨e, he, hk⟩, hi⟩
      exact ⟨hi, e, he, hk⟩
    · rintro ⟨hi, e, he, hk⟩
      exact ⟨⟨e, he, hk⟩, hi⟩

/-- C7, witness: six rows whose categories occur in the order `Rent`, `7`, `Food`,
`Rent`, `30`, `7`; the keys are `7`, `30`, `Rent`, `Food`. -/
theorem categoryTotals_key_order_witness :
    (∀ e ∈ [mkRow 1 "1" "Rent", mkRow 2 "1" "30", mkRow 3 "1" "Food", mkRow 4 "1" "Rent",
        mkRow 5 "1" "7", mkRow 6 "1" "30"], e.category ≠ "__proto__") ∧
    objectKeys (categoryTotals [mkRow 1 "1" "Rent", mkRow 2 "1" "30", mkRow 3 "1" "Food",
        mkRow 4 "1" "Rent", mkRow 5 "1" "7", mkRow 6 "1" "30"]) = ["7", "30", "Rent", "Food"] ∧
    ∃ idx : List String,
      objectKeys (categoryTotals [mkRow 1 "1" "Rent", mkRow 2 "1" "30", mkRow 3 "1" "Food",
          mkRow 4 "1" "Rent", mkRow 5 "1" "7", mkRow 6 "1" "30"])
        = idx ++ firstOccurrences
            (([mkRow 1 "1" "Rent", mkRow 2 "1" "30", mkRow 3 "1" "Food", mkRow 4 "1" "Rent",
                mkRow 5 "1" "7", mkRow 6 "1" "30"].map Expense.category).filter
              (fun c => (arrayIndex c).isNone)) ∧
      idx.Pairwise (fun a b => (arrayIndex a).getD 0 ≤ (arrayIndex b).getD 0) ∧
      idx.Nodup ∧
      ∀ k, k ∈ idx ↔ (arrayIndex k).isSome = true ∧
        ∃ e ∈ [mkRow 1 "1" "Rent", mkRow 2 "1" "30", mkRow 3 "1" "Food", mkRow 4 "1" "Rent",
          mkRow 5 "1" "7", mkRow 6 "1" "30"], e.category = k :=
  ⟨by decide, by decide!,
   categoryTotals_key_order [mkRow 1 "1" "Rent", mkRow 2 "1" "30", mkRow 3 "1" "Food",
     mkRow 4 "1" "Rent", mkRow 5 "1" "7", mkRow 6 "1" "30"] (by decide)⟩

/-- The labels of the chart and the lines of the per-category display are the keys in
the order of `Object.keys`; the placeholder is shown exactly when there is none. -/
theorem CategoryChart_labels (totals : JSObject) :
    CategoryChart totals
      = if (objectKeys totals).length = 0 then .noData
        else .bars (objectKeys totals) ((objectKeys totals).map totals.get) := rfl

/-! ## C5 and C10: the date filters -/

/-- The list `loadExpenses` displays holds exactly the stored rows whose date text is
not below the parameter of the query, if the filter has one. -/
theorem mem_loadExpenses (c : Clock) (s : State) (r : Expense) :
    r ∈ (loadExpenses c s).expenses ↔
      r ∈ s.db.rows ∧ ∀ start, filterStart c s.filter = some start →
        textLE start.data r.date.data = true := by
  simp only [loadExpenses, Store.select]
  rw [(List.perm_insertionSort _ _).mem_iff]
  cases filterStart c s.filter with
  | none => simp
  | some start => simp [List.mem_filter]

/-- A conditional between two values of a range lies in the range. -/
theorem ite_range (p : Prop) [Decidable p] (a b : Int) (ha : 0 ≤ a ∧ a ≤ 11)
    (hb : 0 ≤ b ∧ b ≤ 11) : 0 ≤ (if p then a else b) ∧ (if p then a else b) ≤ 11 := by
  by_cases h : p
  · rw [if_pos h]; exact ha
  · rw [if_neg h]; exact hb

/-- The month of a time value is one of `0 .. 11`. -/
theorem MonthFromTime_range (t : Int) : 0 ≤ MonthFromTime t ∧ MonthFromTime t ≤ 11 := by
  unfold MonthFromTime
  exact ite_range _ _ _ (by decide) (ite_range _ _ _ (by decide) (ite_range _ _ _ (by decide)
    (ite_range _ _ _ (by decide) (ite_range _ _ _ (by decide) (ite_range _ _ _ (by decide)
    (ite_range _ _ _ (by decide) (ite_range _ _ _ (by decide) (ite_range _ _ _ (by decide)
    (ite_range _ _ _ (by decide) (ite_range _ _ _ (by decide) (by decide)))))))))))

/-- The operation `MakeDay` on a month in `0 .. 11`. -/
theorem MakeDay_of_month (y m d : Int) (h0 : 0 ≤ m) (h11 : m ≤ 11) :
    MakeDay y m d
      = DayFromYear y + daysBeforeMonth m (if DaysInYear y = 366 then 1 else 0) + d - 1 := by
  have hdiv : m / 12 = 0 := by omega
  have hmod : m % 12 = m := by omega
  unfold MakeDay
  simp only [hdiv, hmod, add_zero]

/-- The day of the month in terms of the day number. -/
theorem DateFromTime_eq (t : Int) :
    DateFromTime t = Day t - DayFromYear (YearFromTime t)
      - daysBeforeMonth (MonthFromTime t) (if DaysInYear (YearFromTime t) = 366 then 1 else 0)
      + 1 := rfl

/-- In a zone of fixed offset, the instant `weekStart` of the filter `"week"` is the
current instant moved back by `getDay()` whole days: `setDate` keeps the time of day, and
the zone offset cancels. -/
theorem setDate_back (c : Clock) (t j : Int) :
    setDate c t (getDate c t - j) = t - j * msPerDay := by
  obtain ⟨h0, h11⟩ := MonthFromTime_range (LocalTime c t)
  have hsplit : Day (LocalTime c t) * msPerDay + TimeWithinDay (LocalTime c t)
      = LocalTime c t := by
    unfold Day TimeWithinDay
    exact Int.ediv_add_emod' _ _
  have hlocal : LocalTime c t = t + c.tza := rfl
  unfold setDate getDate
  simp only []
  rw [MakeDay_of_month _ _ _ h0 h11, DateFromTime_eq]
  unfold MakeDate UTC
  generalize daysBeforeMonth (MonthFromTime (LocalTime c t))
    (if DaysInYear (YearFromTime (LocalTime c t)) = 366 then 1 else 0) = b
  generalize DayFromYear (YearFromTime (LocalTime c t)) = f
  generalize TimeWithinDay (LocalTime c t) = w at hsplit ⊢
  generalize Day (LocalTime c t) = dd at hsplit ⊢
  have hcalc : (f + b + (dd - f - b + 1 - j) - 1) * msPerDay + w - c.tza
      = dd * msPerDay + w - j * msPerDay - c.tza := by ring
  rw [hcalc, hsplit, hlocal]
  ring

/-- In a zone of fixed offset, the parameter of the filter `"week"` is the UTC date of
the instant `getDay()` whole days before now, where `getDay()` is the local day of the
week. -/
theorem startString_eq (c : Clock) :
    startString c = isoDatePart (c.now - getDay c c.now * msPerDay) := by
  unfold startString
  simp only [setDate_back]

/-- The instant `weekStart` falls on a Sunday of the local calendar; `startString` is
the UTC date of that instant, which is that Sunday only where the two calendars agree
on the instant. -/
theorem weekStart_local_sunday (c : Clock) :
    WeekDay (LocalTime c (setDate c c.now (getDate c c.now - getDay c c.now))) = 0 := by
  rw [setDate_back]
  unfold getDay WeekDay LocalTime Day msPerDay
  omega

/-- C5, the code at the failing inputs.  On Saturday 2024-06-15 at 22:00 local time, five
hours behind UTC, the week filter starts at `2024-06-10` and drops the row dated
2024-06-09; on the same Saturday at 05:00 local time, ten hours ahead of UTC, it starts
at `2024-06-08` and keeps the row dated 2024-06-08; at noon in the zone UTC it starts at
`2024-06-09`. -/
theorem loadExpenses_week_start_shifted :
    (getFullYear lateEveningWest lateEveningWest.now = 2024 ∧
      getMonth lateEveningWest lateEveningWest.now = 5 ∧
      getDate lateEveningWest lateEveningWest.now = 15 ∧
      getDay lateEveningWest lateEveningWest.now = 6 ∧
      startString lateEveningWest = "2024-06-10" ∧
      (loadExpenses lateEveningWest weekState).expenses.map Expense.date = ["2024-06-10"]) ∧
    (getFullYear earlyMorningEast earlyMorningEast.now = 2024 ∧
      getMonth earlyMorningEast earlyMorningEast.now = 5 ∧
      getDate earlyMorningEast earlyMorningEast.now = 15 ∧
      getDay earlyMorningEast earlyMorningEast.now = 6 ∧
      startString earlyMorningEast = "2024-06-08" ∧
      (loadExpenses earlyMorningEast weekState).expenses.map Expense.date
        = ["2024-06-10", "2024-06-09", "2024-06-08"]) ∧
    (getDate noonUTC noonUTC.now = 15 ∧ getDay noonUTC noonUTC.now = 6 ∧
      startString noonUTC = "2024-06-09" ∧
      (loadExpenses noonUTC weekState).expenses.map Expense.date
        = ["2024-06-10", "2024-06-09"]) := by
  decide

/-- C10, the code at the failing input.  On 2024-07-01 at 05:00 local time, ten hours
ahead of UTC, `addExpense` under the filter `"month"` stores a row dated `2024-06-30`,
the month filter starts at `2024-07-01`, and the list displayed after the insertion does
not contain the new row; under the filters `"all"` and `"week"` it does. -/
theorem addExpense_new_row_outside_month :
    isoDatePart firstOfMonthEast.now = "2024-06-30" ∧
    monthStart firstOfMonthEast = "2024-07-01" ∧
    (addExpense firstOfMonthEast
        { initialState with amount := "12.50", category := "Food", filter := .month }).toOption.map
      (fun s => (s.db.rows.map Expense.date, s.expenses)) = some (["2024-06-30"], []) ∧
    (addExpense firstOfMonthEast
        { initialState with amount := "12.50", category := "Food", filter := .week }).toOption.map
      (fun s => s.expenses.map Expense.date) = some ["2024-06-30"] ∧
    (addExpense firstOfMonthEast
        { initialState with amount := "12.50", category := "Food", filter := .all }).toOption.map
      (fun s => s.expenses.map Expense.date) = some ["2024-06-30"] := by
  decide!

end ExpenseTracker
